import Mathlib

/-!
# pico-uart-hci: the USB CDC -> HCI packet assembler of `main.c`

A shallow embedding of `process_usb_to_hci` (main.c, lines 57-132), of the
state it works on and of `process_hci_to_usb` (lines 135-148), followed by
theorems about them.

Conventions of the embedding:
* a byte is a `Nat` below 256; byte arrays are `List Nat`;
* `uint32_t` arithmetic is `Nat` arithmetic followed by `% UINT32_MOD`;
* the CDC receive FIFO of interface 0 is the list of the bytes that can be read,
  oldest first;
* a write outside `rx_state.buffer` makes the step return `none`;
* the copy of a completed packet to `hci_tx_buf + 3` has no bound check in
  `main.c`: for a packet of more than 2045 bytes it runs past the end of
  `hci_tx_buf`, which is undefined behaviour in C. The embedding does not follow
  the program into it: the hand-off event then carries `none` for the data given
  to the controller, and the world it returns for such a call (the send buffer
  with the header only, the control fields reset) is not determined by the C
  program.
-/

namespace PicoUartHci

/-! ## Constants and primitive operations -/

/-- The size of every transfer buffer: `#define BUFFER_SIZE 2048`. -/
def BUFFER_SIZE : Nat := 2048

/-- The modulus of `uint32_t` arithmetic, 2^32. -/
def UINT32_MOD : Nat := 4294967296

/-- Modelled from the spec: the `MIN` of two unsigned values. `main.c` uses the
`MIN` that the SDK headers define, which are not part of the sources; the spec
reads it as the minimum (`expected_len = min(..., capacity)`). -/
def MIN (a b : Nat) : Nat := if a < b then a else b

/-- The C library copy `memcpy(dst + off, src, n)` into the array `dst`: defined
when the destination range lies inside `dst` and `src` holds `n` bytes. -/
def memcpy (dst : List Nat) (off : Nat) (src : List Nat) (n : Nat) : Option (List Nat) :=
  if off + n ≤ dst.length ∧ n ≤ src.length then
    some (dst.take off ++ src.take n ++ dst.drop (off + n))
  else none

/-- Modelled from the spec: `tud_cdc_n_available(0)` belongs to the USB stack,
whose code is not part of the sources; by the spec's `bytes_available()` it is
the number of bytes waiting in the receive FIFO. -/
def tud_cdc_n_available (cdc : List Nat) : Nat := cdc.length

/-- Modelled from the spec: `tud_cdc_n_read(0, &buf[off], n)` belongs to the USB
stack, whose code is not part of the sources; by the spec's
`read(buffer, max_len)` it moves the first `min n available` bytes of the FIFO
to `buf[off ..]`, in order. The result is the new buffer, the FIFO left and the
number of bytes moved; the call is defined when `buf[off .. off + n)` lies
inside `buf`. -/
def tud_cdc_n_read (cdc buf : List Nat) (off n : Nat) : Option (List Nat × List Nat × Nat) :=
  if off + n ≤ buf.length then
    some (buf.take off ++ cdc.take n ++ buf.drop (off + (cdc.take n).length),
          cdc.drop n, (cdc.take n).length)
  else none

/-! ## State -/

/-- The record `hci_usb_rx_state_t`. -/
structure hci_usb_rx_state_t where
  buffer : List Nat
  expected_len : Nat
  received_len : Nat
  in_progress : Bool
deriving DecidableEq

/-- The static initialiser `rx_state = {0}`. -/
def rx_state_init : hci_usb_rx_state_t :=
  { buffer := List.replicate BUFFER_SIZE 0, expected_len := 0, received_len := 0,
    in_progress := false }

/-- Everything `process_usb_to_hci` reads or writes: the two static buffers and
the CDC receive FIFO. -/
structure World where
  rx_state : hci_usb_rx_state_t
  hci_tx_buf : List Nat
  cdc : List Nat
deriving DecidableEq

/-- The world at start-up holding `cdc` in the FIFO. -/
def World.init (cdc : List Nat) : World :=
  { rx_state := rx_state_init, hci_tx_buf := List.replicate BUFFER_SIZE 0, cdc := cdc }

/-- What one call of `process_usb_to_hci` does towards the outside. -/
inductive Event where
  /-- The call returned without reporting a byte or completing a packet. -/
  | idle
  /-- The call reported `packet_type` as unsupported and dropped it (line 76). -/
  | unsupported (packet_type : Nat)
  /-- The call completed `packet = rx_state.buffer[0 .. expected_len)`
  (lines 120-131); `hci_write` is the `expected_len + 3` bytes of `hci_tx_buf`
  given to `cyw43_bluetooth_hci_write`, or `none` when the copy to
  `hci_tx_buf + 3` does not fit in `hci_tx_buf`. -/
  | handoff (packet : List Nat) (hci_write : Option (List Nat))
deriving DecidableEq

/-- The packet of a hand-off event. -/
def Event.packet? : Event → Option (List Nat)
  | .handoff p _ => some p
  | _ => none

/-! ## `process_usb_to_hci` -/

/-- The `switch (packet_type)` of lines 71-79: the preamble size of a supported
packet type, `none` in the `default` case. -/
def preamble_size_of (packet_type : Nat) : Option Nat :=
  if packet_type = 1 then some 3
  else if packet_type = 2 then some 4
  else if packet_type = 3 then some 3
  else none

/-- Lines 90-97: the payload length read from the preamble in `buffer`. -/
def payload_len_of (packet_type : Nat) (buffer : List Nat) : Nat :=
  if packet_type = 1 then buffer.getD 3 0
  else if packet_type = 2 then (buffer.getD 3 0 ||| (buffer.getD 4 0 <<< 8)) % UINT32_MOD
  else if packet_type = 3 then buffer.getD 3 0
  else 0

/-- How the block of lines 61-105 ends. -/
inductive Start where
  /-- The function returned from inside the block. -/
  | returned (w : World) (e : Event)
  /-- Control reached line 107 with a packet started. -/
  | proceed (w : World)
deriving DecidableEq

/-- Lines 62-104, run when `rx_state.in_progress` is false. -/
def start_packet (w : World) : Option Start :=
  if tud_cdc_n_available w.cdc < 1 then some (.returned w .idle)
  else
    match tud_cdc_n_read w.cdc w.rx_state.buffer 0 1 with
    | none => none
    | some (buf1, cdc1, _) =>
      let packet_type := buf1.getD 0 0
      let w1 : World := { w with rx_state := { w.rx_state with buffer := buf1 }, cdc := cdc1 }
      match preamble_size_of packet_type with
      | none => some (.returned w1 (.unsupported packet_type))
      | some preamble_size =>
        if tud_cdc_n_available cdc1 < preamble_size then some (.returned w1 .idle)
        else
          match tud_cdc_n_read cdc1 buf1 1 preamble_size with
          | none => none
          | some (buf2, cdc2, _) =>
            let payload_len := payload_len_of packet_type buf2
            some (.proceed
              { w with
                rx_state :=
                  { buffer := buf2
                    expected_len :=
                      MIN ((1 + preamble_size + payload_len) % UINT32_MOD) BUFFER_SIZE
                    received_len := (1 + preamble_size) % UINT32_MOD
                    in_progress := true }
                cdc := cdc2 })

/-- Lines 108-117: read as much of the rest of the packet as is available. -/
def read_payload (w : World) : Option World :=
  let remaining := (w.rx_state.expected_len + UINT32_MOD - w.rx_state.received_len) % UINT32_MOD
  if remaining > 0 then
    let available := tud_cdc_n_available w.cdc
    let to_read := MIN remaining available
    if to_read > 0 then
      match tud_cdc_n_read w.cdc w.rx_state.buffer w.rx_state.received_len to_read with
      | none => none
      | some (buf, cdc1, _) =>
        some { w with
               rx_state :=
                 { w.rx_state with
                   buffer := buf
                   received_len := (w.rx_state.received_len + to_read) % UINT32_MOD }
               cdc := cdc1 }
    else some w
  else some w

/-- Lines 122-125: build `header ++ packet` in `hci_tx_buf`. The result is the
new `hci_tx_buf` and the `expected_len + 3` bytes given to
`cyw43_bluetooth_hci_write`. In `main.c` the second `memcpy` has no bound check:
when `expected_len + 3` exceeds the size of `hci_tx_buf` it writes 1 to 3 bytes
past the end of the array and the write is given a length above the array size,
which is undefined behaviour. That case is the result `none` in the second
component; the first component then keeps what the first `memcpy` left and
stands for a content the C program does not determine. -/
def hci_submit (hci_tx_buf buffer : List Nat) (expected_len : Nat) :
    List Nat × Option (List Nat) :=
  let header := [0, 0, 0]
  match memcpy hci_tx_buf 0 header 3 with
  | none => (hci_tx_buf, none)
  | some tx1 =>
    match memcpy tx1 3 buffer expected_len with
    | none => (tx1, none)
    | some tx2 => (tx2, some (tx2.take ((expected_len + 3) % UINT32_MOD)))

/-- Lines 120-131: hand the packet off once it is complete, and reset. When the
copy overran `hci_tx_buf` (the event carries `none`), the world returned is what
lines 128-130 leave if the overrun touched nothing else, which the C program
does not guarantee. -/
def complete_packet (w : World) : World × Event :=
  if w.rx_state.received_len = w.rx_state.expected_len then
    let sub := hci_submit w.hci_tx_buf w.rx_state.buffer w.rx_state.expected_len
    ({ w with
       rx_state :=
         { w.rx_state with in_progress := false, received_len := 0, expected_len := 0 }
       hci_tx_buf := sub.1 },
     .handoff (w.rx_state.buffer.take w.rx_state.expected_len) sub.2)
  else (w, .idle)

/-- Lines 107-131. -/
def finish_packet (w : World) : Option (World × Event) :=
  match read_payload w with
  | none => none
  | some w1 => some (complete_packet w1)

/-- One call of `process_usb_to_hci`; `connected` is `tud_cdc_n_connected(0)`.
The result is `none` when a write outside `rx_state.buffer` is attempted. -/
def process_usb_to_hci (connected : Bool) (w : World) : Option (World × Event) :=
  if !connected then some (w, .idle)
  else if !w.rx_state.in_progress then
    match start_packet w with
    | none => none
    | some (.returned w1 e) => some (w1, e)
    | some (.proceed w1) => finish_packet w1
  else finish_packet w

/-! ## The spec side: packets, and drivers for sequences of calls -/

/-- The preamble length the spec's table gives to a kind. -/
def spec_preamble_length (kind : Nat) : Nat :=
  match kind with
  | 1 => 3
  | 2 => 4
  | 3 => 3
  | _ => 0

/-- The payload length the spec's table reads from a preamble: the third
preamble byte for the kinds 1 and 3, the little-endian 16-bit value of the third
and fourth preamble bytes for the kind 2. -/
def spec_payload_length (kind : Nat) (preamble : List Nat) : Nat :=
  match kind with
  | 1 => preamble.getD 2 0
  | 2 => preamble.getD 2 0 + 256 * preamble.getD 3 0
  | 3 => preamble.getD 2 0
  | _ => 0

/-- The kinds of the spec's table. -/
def known_kind (kind : Nat) : Prop := kind = 1 ∨ kind = 2 ∨ kind = 3

instance (kind : Nat) : Decidable (known_kind kind) := by
  unfold known_kind
  infer_instance

/-- The world left by a call that read `frame` from the FIFO into
`rx_state.buffer[0 ..]` and handed it off. -/
def after_handoff (w : World) (frame : List Nat) : World :=
  { rx_state :=
      { buffer := frame ++ w.rx_state.buffer.drop frame.length
        expected_len := 0
        received_len := 0
        in_progress := false }
    hci_tx_buf :=
      (hci_submit w.hci_tx_buf (frame ++ w.rx_state.buffer.drop frame.length) frame.length).1
    cdc := w.cdc.drop frame.length }

/-- The data given to the controller by a call that handed `frame` off. -/
def submitted (w : World) (frame : List Nat) : Option (List Nat) :=
  (hci_submit w.hci_tx_buf (frame ++ w.rx_state.buffer.drop frame.length) frame.length).2

/-- A packet of the spec's data model: kind, preamble and payload. -/
structure Packet where
  kind : Nat
  preamble : List Nat
  payload : List Nat
deriving DecidableEq

/-- The on-wire bytes of a packet: kind, then preamble, then payload. -/
def Packet.wire (p : Packet) : List Nat := p.kind :: (p.preamble ++ p.payload)

/-- A legal packet: a known kind, a preamble of the kind's length whose length
field is the length of the payload, and nothing but bytes. -/
def Packet.legal (p : Packet) : Prop :=
  known_kind p.kind ∧ p.preamble.length = spec_preamble_length p.kind
    ∧ spec_payload_length p.kind p.preamble = p.payload.length
    ∧ (∀ b ∈ p.preamble, b < 256) ∧ (∀ b ∈ p.payload, b < 256)

instance (p : Packet) : Decidable p.legal := by
  unfold Packet.legal
  infer_instance

/-- The bytes of a sequence of packets, one after the other. -/
def wire_stream : List Packet → List Nat
  | [] => []
  | p :: ps => p.wire ++ wire_stream ps

/-- The worlds in which the arrays have their declared size. -/
def World.sized (w : World) : Prop :=
  w.rx_state.buffer.length = BUFFER_SIZE ∧ w.hci_tx_buf.length = BUFFER_SIZE

/-- The control fields of the zero state. -/
def hci_usb_rx_state_t.is_zero (s : hci_usb_rx_state_t) : Prop :=
  s.in_progress = false ∧ s.received_len = 0 ∧ s.expected_len = 0

/-- The world left by a call that read the byte `b` into `buffer[0]` as a packet
type and returned, `rest` being what the FIFO then holds. -/
def World.type_byte_read (w : World) (b : Nat) (rest : List Nat) : World :=
  { w with
    rx_state := { w.rx_state with buffer := b :: w.rx_state.buffer.drop 1 }
    cdc := rest }

/-- The arrival of a chunk of bytes from the host: the bytes join the FIFO. -/
def deliver (w : World) (chunk : List Nat) : World := { w with cdc := w.cdc ++ chunk }

/-- The events of `n` consecutive calls of `process_usb_to_hci`. -/
def calls (connected : Bool) : Nat → World → Option (World × List Event)
  | 0, w => some (w, [])
  | n + 1, w =>
    match process_usb_to_hci connected w with
    | none => none
    | some (w1, e) =>
      match calls connected n w1 with
      | none => none
      | some (w2, es) => some (w2, e :: es)

/-- The packet list of an event: one packet for a hand-off, none otherwise. -/
def Event.packets : Event → List (List Nat)
  | .handoff p _ => [p]
  | _ => []

/-- Call `process_usb_to_hci` until a call neither takes a byte from the FIFO
nor hands off a packet, at most `fuel` times; the result holds the packets
handed off, and is `none` when `fuel` calls were not enough. -/
def drain : Nat → World → Option (World × List (List Nat))
  | 0, _ => none
  | fuel + 1, w =>
    match process_usb_to_hci true w with
    | none => none
    | some (w1, e) =>
      if w1.cdc.length = w.cdc.length ∧ e.packets = [] then some (w1, [])
      else
        match drain fuel w1 with
        | none => none
        | some (w2, ps) => some (w2, e.packets ++ ps)

/-- Deliver the chunks one after the other, draining the FIFO after each. Every
call of a drain but the last takes a byte or hands off a packet, so two calls
more than the bytes in the FIFO are allowed for. -/
def feed : World → List (List Nat) → Option (World × List (List Nat))
  | w, [] => some (w, [])
  | w, chunk :: chunks =>
    match drain ((deliver w chunk).cdc.length + 2) (deliver w chunk) with
    | none => none
    | some (w1, ps) =>
      match feed w1 chunks with
      | none => none
      | some (w2, qs) => some (w2, ps ++ qs)

/-- The bytes an event accounts for: the packet of a hand-off, the byte dropped
as unsupported. -/
def Event.bytes : Event → List Nat
  | .idle => []
  | .unsupported b => [b]
  | .handoff p _ => p

/-- The bytes accounted for after some calls: those of the events, in order,
then the part of the packet in progress. -/
def accounted (es : List Event) (s : hci_usb_rx_state_t) : List Nat :=
  (es.map Event.bytes).flatten ++ (if s.in_progress then s.buffer.take s.received_len else [])

/-- The bytes taken from a FIFO that held `stream` and now holds `w.cdc`. -/
def consumed (stream : List Nat) (w : World) : List Nat :=
  stream.take (stream.length - w.cdc.length)

/-! ## The reverse pump `process_hci_to_usb` -/

/-- What `cyw43_bluetooth_hci_read(hci_buffer, BUFFER_SIZE, &len)` (line 139)
left behind: its return value, the length it reported and the local array
`hci_buffer`. -/
structure HciRead where
  res : Int
  len : Nat
  hci_buffer : List Nat
deriving DecidableEq

/-- Modelled from the spec: the controller's `read(buffer, max_len)` belongs to
the radio driver, whose code is not part of the sources; by the spec it yields
at most one packet of at most `max_len` bytes, so a read into the
`BUFFER_SIZE`-byte array that succeeds reports a length of at most
`BUFFER_SIZE`. -/
def HciRead.within_max_len (r : HciRead) : Prop :=
  r.hci_buffer.length = BUFFER_SIZE ∧ (r.res = 0 → r.len ≤ BUFFER_SIZE)

/-- What one call of `process_hci_to_usb` does towards the host. -/
inductive Forward where
  /-- Neither `tud_cdc_n_write` nor `tud_cdc_n_write_flush` was called. -/
  | nothing
  /-- The call gave `data` to `tud_cdc_n_write(0, ..)`, which reported `written`;
  `flushed` tells whether `tud_cdc_n_write_flush(0)` was called. -/
  | wrote (data : List Nat) (written : Nat) (flushed : Bool)
deriving DecidableEq

/-- The `uint32_t` expression `len-3` of lines 142-143. -/
def strip_len (len : Nat) : Nat := (len + UINT32_MOD - 3) % UINT32_MOD

/-- One call of `process_hci_to_usb` (lines 135-148) after the controller read
`r`. The parameter `tud_cdc_n_write` gives the count that the host-facing write
reports for the data it is given (Modelled from the spec: `write(buffer)` of
the host-facing transport, whose code is not part of the sources). The result
is `none` when the range `hci_buffer[3 .. 3 + (len-3))` given to the write does
not lie inside `hci_buffer`. -/
def process_hci_to_usb (r : HciRead) (tud_cdc_n_write : List Nat → Nat) : Option Forward :=
  if r.res = 0 ∧ r.len > 0 then
    if 3 + strip_len r.len ≤ r.hci_buffer.length then
      let data := (r.hci_buffer.drop 3).take (strip_len r.len)
      let written := tud_cdc_n_write data
      if written > 0 then some (.wrote data written true)
      else some (.wrote data written false)
    else none
  else some .nothing

/-! ## Sequences of calls and deliveries, and the states they reach -/

/-- What can happen to the assembler and its FIFO: a call of
`process_usb_to_hci`, with the host connected or not, or the arrival of a chunk
of bytes from the host. -/
inductive Action where
  | call (connected : Bool)
  | deliver (chunk : List Nat)
deriving DecidableEq

/-- The chunk of a delivery holds bytes. -/
def Action.bytes_ok : Action → Prop
  | .call _ => True
  | .deliver chunk => ∀ b ∈ chunk, b < 256

/-- Run a script of actions from `w`: the world reached and the events of the
calls, in order; `none` when a call writes outside `rx_state.buffer`. -/
def run : World → List Action → Option (World × List Event)
  | w, [] => some (w, [])
  | w, .deliver chunk :: script => run (deliver w chunk) script
  | w, .call connected :: script =>
    match process_usb_to_hci connected w with
    | none => none
    | some (w1, e) =>
      match run w1 script with
      | none => none
      | some (w2, es) => some (w2, e :: es)

/-- The world after lines 108-117 took `m = min (expected_len - received_len)
available` bytes from the FIFO into `buffer[received_len ..]`. -/
def World.payload_read (w : World) : World :=
  { w with
    rx_state :=
      { w.rx_state with
        buffer :=
          w.rx_state.buffer.take w.rx_state.received_len
            ++ w.cdc.take (min (w.rx_state.expected_len - w.rx_state.received_len) w.cdc.length)
            ++ w.rx_state.buffer.drop
                (w.rx_state.received_len
                  + min (w.rx_state.expected_len - w.rx_state.received_len) w.cdc.length)
        received_len :=
          w.rx_state.received_len
            + min (w.rx_state.expected_len - w.rx_state.received_len) w.cdc.length }
    cdc := w.cdc.drop (min (w.rx_state.expected_len - w.rx_state.received_len) w.cdc.length) }

/-- The world at line 107 after lines 62-104 started a packet of kind `k` with
the preamble `pre`, `rest` being what the FIFO then holds. -/
def World.started (w : World) (k : Nat) (pre rest : List Nat) : World :=
  { w with
    rx_state :=
      { buffer := k :: pre ++ w.rx_state.buffer.drop (1 + pre.length)
        expected_len := min (1 + pre.length + spec_payload_length k pre) BUFFER_SIZE
        received_len := 1 + pre.length
        in_progress := true }
    cdc := rest }

/-- The header of the packet being assembled is in place: `buffer` starts with
a known kind and its preamble, all of it received, and `expected_len` is the
clamped length the preamble declares. -/
def header_ok (s : hci_usb_rx_state_t) : Prop :=
  ∃ k pre, known_kind k ∧ pre.length = spec_preamble_length k
    ∧ s.buffer.take (1 + pre.length) = k :: pre
    ∧ 1 + pre.length ≤ s.received_len
    ∧ s.expected_len = min (1 + pre.length + spec_payload_length k pre) BUFFER_SIZE

/-- The worlds at line 107: a packet is being assembled, its header in place,
and not more than expected has been received. -/
def World.assembling (w : World) : Prop :=
  w.sized ∧ (∀ b ∈ w.cdc, b < 256) ∧ w.rx_state.in_progress = true
    ∧ header_ok w.rx_state ∧ w.rx_state.received_len ≤ w.rx_state.expected_len

/-- The worlds between calls: the arrays have their size, the FIFO holds bytes,
the control fields are zero when no packet is in progress, and a packet in
progress has its header in place and is not complete. -/
def World.wf (w : World) : Prop :=
  w.sized ∧ (∀ b ∈ w.cdc, b < 256)
    ∧ (w.rx_state.in_progress = false →
        w.rx_state.received_len = 0 ∧ w.rx_state.expected_len = 0)
    ∧ (w.rx_state.in_progress = true →
        w.rx_state.received_len < w.rx_state.expected_len ∧ header_ok w.rx_state)

/-- The shape of a packet: between 1 and `BUFFER_SIZE` bytes, a known kind
first, and a length that is the clamped length its own preamble declares. -/
def packet_shape (pkt : List Nat) : Prop :=
  1 ≤ pkt.length ∧ pkt.length ≤ BUFFER_SIZE ∧ known_kind (pkt.getD 0 0)
    ∧ pkt.length
        = min (1 + spec_preamble_length (pkt.getD 0 0)
            + spec_payload_length (pkt.getD 0 0)
                ((pkt.drop 1).take (spec_preamble_length (pkt.getD 0 0)))) BUFFER_SIZE

/-- What an event promises about the world its call leaves: a hand-off carries
a packet of the right shape and leaves the control fields zero, and so does the
drop of an unsupported byte. -/
def Event.ok (e : Event) (w1 : World) : Prop :=
  match e with
  | .idle => True
  | .unsupported _ => w1.rx_state.is_zero
  | .handoff p _ => packet_shape p ∧ w1.rx_state.is_zero

/-- The world one call leaves from the zero state when the FIFO holds only the
header `01 00 00 01` of a kind-1 packet with one payload byte: the header is in
`buffer[0 .. 4)`, the payload byte is awaited. -/
def stalled_world : World := ((World.init [1, 0, 0, 1]).started 1 [0, 0, 1] []).payload_read

/-- The stalled world after the awaited payload byte `AA` arrived in the FIFO. -/
def resumed_world : World := deliver stalled_world [0xAA]

/-- Two worlds that differ at most in the stale bytes of their arrays: the same
FIFO, the same control fields, the same bytes in `buffer[0 .. received_len)`,
and arrays of the declared size. -/
def World.alike (w w' : World) : Prop :=
  w.cdc = w'.cdc
    ∧ w.rx_state.expected_len = w'.rx_state.expected_len
    ∧ w.rx_state.received_len = w'.rx_state.received_len
    ∧ w.rx_state.in_progress = w'.rx_state.in_progress
    ∧ w.rx_state.buffer.take w.rx_state.received_len
        = w'.rx_state.buffer.take w'.rx_state.received_len
    ∧ w.sized ∧ w'.sized

/-! ## Basic facts -/

theorem MIN_eq_min (a b : Nat) : MIN a b = min a b := by
  unfold MIN
  split <;> omega

/-- A read into a buffer known as `got ++ junk`, at the end of `got`. -/
theorem tud_cdc_n_read_append (cdc got junk : List Nat) (n : Nat)
    (h : got.length + n ≤ (got ++ junk).length) :
    tud_cdc_n_read cdc (got ++ junk) got.length n
      = some (got ++ cdc.take n ++ junk.drop (cdc.take n).length, cdc.drop n,
              (cdc.take n).length) := by
  unfold tud_cdc_n_read
  rw [if_pos h, List.take_left, List.drop_append]

theorem take_min_length (l : List Nat) (r : Nat) : l.take (min r l.length) = l.take r := by
  rcases Nat.le_total r l.length with h | h
  · rw [Nat.min_eq_left h]
  · rw [Nat.min_eq_right h, List.take_length, List.take_of_length_le h]

/-- Lines 108-117 on a buffer known as `got ++ junk` with `received_len = got.length`. -/
theorem read_payload_append (w : World) (got junk : List Nat)
    (hbuf : w.rx_state.buffer = got ++ junk)
    (hrecv : w.rx_state.received_len = got.length)
    (hle : got.length ≤ w.rx_state.expected_len)
    (hcap : w.rx_state.expected_len ≤ (got ++ junk).length)
    (hsize : (got ++ junk).length < UINT32_MOD) :
    read_payload w = some
      { w with
        rx_state :=
          { w.rx_state with
            buffer := got ++ w.cdc.take (w.rx_state.expected_len - got.length)
              ++ junk.drop (min (w.rx_state.expected_len - got.length) w.cdc.length)
            received_len := got.length + min (w.rx_state.expected_len - got.length) w.cdc.length }
        cdc := w.cdc.drop (w.rx_state.expected_len - got.length) } := by
  obtain ⟨⟨buffer, expected_len, received_len, in_progress⟩, tx, cdc⟩ := w
  simp only at hbuf hrecv hle hcap hsize
  subst hbuf hrecv
  have hrem : (expected_len + UINT32_MOD - got.length) % UINT32_MOD = expected_len - got.length := by
    have : expected_len + UINT32_MOD - got.length = (expected_len - got.length) + UINT32_MOD := by omega
    rw [this, Nat.add_mod_right, Nat.mod_eq_of_lt (by omega)]
  unfold read_payload
  simp only [hrem, tud_cdc_n_available, MIN_eq_min]
  by_cases h0 : expected_len - got.length > 0
  · rw [if_pos h0]
    by_cases h1 : min (expected_len - got.length) cdc.length > 0
    · rw [if_pos h1, tud_cdc_n_read_append _ _ _ _ (by omega)]
      have hmod : (got.length + min (expected_len - got.length) cdc.length) % UINT32_MOD
          = got.length + min (expected_len - got.length) cdc.length := Nat.mod_eq_of_lt (by omega)
      simp only [hmod, take_min_length, List.length_take]
      have hd : List.drop (min (expected_len - got.length) cdc.length) cdc
          = List.drop (expected_len - got.length) cdc := by
        rcases Nat.le_total (expected_len - got.length) cdc.length with h | h
        · rw [Nat.min_eq_left h]
        · rw [Nat.min_eq_right h, List.drop_length, List.drop_of_length_le h]
      rw [hd]
    · rw [if_neg h1]
      have hc : cdc.length = 0 := by omega
      have hnil : cdc = [] := List.length_eq_zero.mp hc
      subst hnil
      simp
  · rw [if_neg h0]
    have hz : expected_len - got.length = 0 := by omega
    simp [hz]

/-- The read of the packet type into `buffer[0]`. -/
theorem tud_cdc_n_read_type (k : Nat) (rest buf : List Nat) (h : 1 ≤ buf.length) :
    tud_cdc_n_read (k :: rest) buf 0 1 = some (k :: buf.drop 1, rest, 1) := by
  unfold tud_cdc_n_read
  rw [if_pos (by omega)]
  simp

theorem start_packet_empty (w : World) (hcdc : w.cdc = []) :
    start_packet w = some (.returned w .idle) := by
  unfold start_packet
  simp [tud_cdc_n_available, hcdc]

/-- The `default` case: the byte lands in `buffer[0]` and is reported. -/
theorem start_packet_unsupported (w : World) (b : Nat) (rest : List Nat)
    (hlen : w.rx_state.buffer.length = BUFFER_SIZE)
    (hcdc : w.cdc = b :: rest)
    (hb : preamble_size_of b = none) :
    start_packet w = some (.returned
      { w with
        rx_state := { w.rx_state with buffer := b :: w.rx_state.buffer.drop 1 }
        cdc := rest } (.unsupported b)) := by
  unfold start_packet
  have h1 : 1 ≤ w.rx_state.buffer.length := by rw [hlen]; decide
  simp [tud_cdc_n_available, hcdc, tud_cdc_n_read_type _ _ _ h1, hb]

/-- The return of line 83: the type byte has been read, the preamble is not
all there. -/
theorem start_packet_short (w : World) (k ps : Nat) (rest : List Nat)
    (hlen : w.rx_state.buffer.length = BUFFER_SIZE)
    (hcdc : w.cdc = k :: rest)
    (hk : preamble_size_of k = some ps)
    (hshort : rest.length < ps) :
    start_packet w = some (.returned
      { w with
        rx_state := { w.rx_state with buffer := k :: w.rx_state.buffer.drop 1 }
        cdc := rest } .idle) := by
  unfold start_packet
  have h1 : 1 ≤ w.rx_state.buffer.length := by rw [hlen]; decide
  simp [tud_cdc_n_available, hcdc, tud_cdc_n_read_type _ _ _ h1, hk, hshort]

theorem preamble_size_of_le {k ps : Nat} (hk : preamble_size_of k = some ps) : 3 ≤ ps ∧ ps ≤ 4 := by
  unfold preamble_size_of at hk
  split at hk
  · simp at hk; omega
  · split at hk
    · simp at hk; omega
    · split at hk
      · simp at hk; omega
      · simp at hk

/-- Lines 62-104 when the type byte and the whole preamble are available. -/
theorem start_packet_proceed (w : World) (k : Nat) (pre rest : List Nat)
    (hlen : w.rx_state.buffer.length = BUFFER_SIZE)
    (hcdc : w.cdc = k :: (pre ++ rest))
    (hk : preamble_size_of k = some pre.length) :
    start_packet w = some (.proceed
      { w with
        rx_state :=
          { buffer := k :: pre ++ w.rx_state.buffer.drop (1 + pre.length)
            expected_len :=
              MIN ((1 + pre.length
                + payload_len_of k (k :: pre ++ w.rx_state.buffer.drop (1 + pre.length)))
                % UINT32_MOD) BUFFER_SIZE
            received_len := (1 + pre.length) % UINT32_MOD
            in_progress := true }
        cdc := rest }) := by
  unfold start_packet
  have h1 : 1 ≤ w.rx_state.buffer.length := by rw [hlen]; decide
  have hps := preamble_size_of_le hk
  have h2 : [k].length + pre.length ≤ ([k] ++ w.rx_state.buffer.drop 1).length := by
    simp [hlen, BUFFER_SIZE]; omega
  have hread := tud_cdc_n_read_append (pre ++ rest) [k] (w.rx_state.buffer.drop 1) pre.length h2
  simp only [List.length_singleton, List.singleton_append, List.take_left, List.drop_left,
    List.drop_drop] at hread
  have c1 : ¬ ((k :: (pre ++ rest)).length < 1) := by simp
  have c2 : ¬ ((pre ++ rest).length < pre.length) := by simp
  simp only [tud_cdc_n_available, hcdc, if_neg c1, tud_cdc_n_read_type _ _ _ h1,
    List.getD_cons_zero, hk, if_neg c2, hread]

/-- Lines 107-131 when the rest of the packet is available: the packet is
completed, handed off, and the state reset. -/
theorem finish_packet_available (w : World) (got junk : List Nat)
    (hbuf : w.rx_state.buffer = got ++ junk)
    (hrecv : w.rx_state.received_len = got.length)
    (hle : got.length ≤ w.rx_state.expected_len)
    (hcap : w.rx_state.expected_len ≤ (got ++ junk).length)
    (hsize : (got ++ junk).length < UINT32_MOD)
    (havail : w.rx_state.expected_len - got.length ≤ w.cdc.length) :
    finish_packet w = some
      ({ rx_state :=
           { buffer := got ++ w.cdc.take (w.rx_state.expected_len - got.length)
               ++ junk.drop (w.rx_state.expected_len - got.length)
             expected_len := 0
             received_len := 0
             in_progress := false }
         hci_tx_buf :=
           (hci_submit w.hci_tx_buf
             (got ++ w.cdc.take (w.rx_state.expected_len - got.length)
               ++ junk.drop (w.rx_state.expected_len - got.length))
             w.rx_state.expected_len).1
         cdc := w.cdc.drop (w.rx_state.expected_len - got.length) },
       .handoff (got ++ w.cdc.take (w.rx_state.expected_len - got.length))
         (hci_submit w.hci_tx_buf
           (got ++ w.cdc.take (w.rx_state.expected_len - got.length)
             ++ junk.drop (w.rx_state.expected_len - got.length))
           w.rx_state.expected_len).2) := by
  unfold finish_packet
  rw [read_payload_append w got junk hbuf hrecv hle hcap hsize]
  obtain ⟨⟨buffer, expected_len, received_len, in_progress⟩, tx, cdc⟩ := w
  simp only at hbuf hrecv hle hcap hsize havail
  subst hbuf hrecv
  have hmin : min (expected_len - got.length) cdc.length = expected_len - got.length :=
    Nat.min_eq_left havail
  have hsum : got.length + (expected_len - got.length) = expected_len := by omega
  have htake : List.take expected_len
      (got ++ List.take (expected_len - got.length) cdc
        ++ List.drop (expected_len - got.length) junk)
      = got ++ List.take (expected_len - got.length) cdc := by
    apply List.take_left'
    rw [List.length_append, List.length_take, hmin, hsum]
  simp only [complete_packet, hmin, hsum, if_true, htake]

theorem preamble_size_of_known {k : Nat} (hk : known_kind k) :
    preamble_size_of k = some (spec_preamble_length k) := by
  rcases hk with h | h | h <;> subst h <;> rfl

theorem lor_shift_eq (a b : Nat) (ha : a < 256) : a ||| (b <<< 8) = a + 256 * b := by
  have h := Nat.mul_add_lt_is_or (show a < 2 ^ 8 from ha) b
  rw [Nat.shiftLeft_eq, Nat.lor_comm, Nat.mul_comm b, ← h]
  norm_num
  omega

/-- The C expressions of lines 90-97 compute the payload length of the table. -/
theorem payload_len_of_eq (k : Nat) (pre junk : List Nat) (hk : known_kind k)
    (hlen : pre.length = spec_preamble_length k) (hb : ∀ b ∈ pre, b < 256) :
    payload_len_of k (k :: pre ++ junk) = spec_payload_length k pre
      ∧ spec_payload_length k pre < 65536 := by
  rcases hk with h | h | h <;> subst h
  · match pre, hlen, hb with
    | [a, b, c], _, hb =>
      have hc : c < 256 := hb c (by simp)
      simp [payload_len_of, spec_payload_length]
      omega
  · match pre, hlen, hb with
    | [a, b, c, d], _, hb =>
      have hc : c < 256 := hb c (by simp)
      have hd : d < 256 := hb d (by simp)
      have hor := lor_shift_eq c d hc
      simp only [payload_len_of, spec_payload_length]
      simp only [List.cons_append, List.getD_cons_succ, List.getD_cons_zero, hor]
      have : c + 256 * d < 65536 := by omega
      refine ⟨?_, this⟩
      simp
      exact Nat.mod_eq_of_lt (by unfold UINT32_MOD; omega)
  · match pre, hlen, hb with
    | [a, b, c], _, hb =>
      have hc : c < 256 := hb c (by simp)
      simp [payload_len_of, spec_payload_length]
      omega

/-- One call with a type byte, its preamble and all the bytes of the packet
(clamped to `BUFFER_SIZE`) available: the call hands off the first
`min (1 + preamble + payload) BUFFER_SIZE` bytes of the FIFO. -/
theorem process_frame (w : World) (k : Nat) (pre rest : List Nat)
    (hip : w.rx_state.in_progress = false)
    (hlen : w.rx_state.buffer.length = BUFFER_SIZE)
    (hcdc : w.cdc = k :: (pre ++ rest))
    (hk : known_kind k) (hpre : pre.length = spec_preamble_length k)
    (hb : ∀ b ∈ pre, b < 256)
    (havail : min (1 + pre.length + spec_payload_length k pre) BUFFER_SIZE ≤ w.cdc.length) :
    process_usb_to_hci true w = some
      (after_handoff w
        (w.cdc.take (min (1 + pre.length + spec_payload_length k pre) BUFFER_SIZE)),
       .handoff (w.cdc.take (min (1 + pre.length + spec_payload_length k pre) BUFFER_SIZE))
         (submitted w
           (w.cdc.take (min (1 + pre.length + spec_payload_length k pre) BUFFER_SIZE)))) := by
  have hps : preamble_size_of k = some pre.length := by
    rw [hpre]; exact preamble_size_of_known hk
  have hps2 := preamble_size_of_le hps
  obtain ⟨hpl, hpl2⟩ := payload_len_of_eq k pre (w.rx_state.buffer.drop (1 + pre.length)) hk hpre hb
  have hstart := start_packet_proceed w k pre rest hlen hcdc hps
  rw [hpl] at hstart
  have hm1 : (1 + pre.length + spec_payload_length k pre) % UINT32_MOD
      = 1 + pre.length + spec_payload_length k pre :=
    Nat.mod_eq_of_lt (by unfold UINT32_MOD; omega)
  have hm2 : (1 + pre.length) % UINT32_MOD = 1 + pre.length :=
    Nat.mod_eq_of_lt (by unfold UINT32_MOD; omega)
  rw [hm1, hm2, MIN_eq_min] at hstart
  generalize hn : min (1 + pre.length + spec_payload_length k pre) BUFFER_SIZE = n at *
  have hn5 : 1 + pre.length ≤ n := by rw [← hn]; unfold BUFFER_SIZE; omega
  have hncap : n ≤ BUFFER_SIZE := by rw [← hn]; omega
  unfold process_usb_to_hci
  simp only [hip, hstart, Bool.not_true, Bool.not_false, Bool.false_eq_true, if_false, if_true]
  have hgot : (k :: pre).length = 1 + pre.length := by simp [Nat.add_comm]
  have hcdclen : w.cdc.length = 1 + pre.length + rest.length := by
    rw [hcdc]; simp; omega
  have hfin := finish_packet_available
    { w with
      rx_state :=
        { buffer := k :: pre ++ w.rx_state.buffer.drop (1 + pre.length)
          expected_len := n
          received_len := 1 + pre.length
          in_progress := true }
      cdc := rest }
    (k :: pre) (w.rx_state.buffer.drop (1 + pre.length)) rfl hgot.symm
    (by simp only [hgot]; exact hn5)
    (by simp only [List.length_append, hgot, List.length_drop, hlen]; omega)
    (by simp only [List.length_append, hgot, List.length_drop, hlen, BUFFER_SIZE, UINT32_MOD]
        omega)
    (by simp only [hgot]; omega)
  rw [hfin]
  simp only [hgot, List.drop_drop]
  have hsum : 1 + pre.length + (n - (1 + pre.length)) = n := by omega
  have htake : w.cdc.take n = k :: pre ++ rest.take (n - (1 + pre.length)) := by
    rw [hcdc, ← List.cons_append, List.take_append_eq_append_take, hgot,
      List.take_of_length_le (by rw [hgot]; exact hn5)]
  have hdrop : w.cdc.drop n = rest.drop (n - (1 + pre.length)) := by
    rw [hcdc, ← List.cons_append, ← hsum, ← hgot, List.drop_append]
    simp [hgot]
  have hflen : (w.cdc.take n).length = n := by
    rw [List.length_take]; omega
  simp only [after_handoff, submitted, hflen, hdrop, hsum]
  rw [htake]

theorem Packet.wire_length (p : Packet) :
    p.wire.length = 1 + p.preamble.length + p.payload.length := by
  simp [Packet.wire]; omega

theorem hci_submit_fits (tx buffer : List Nat) (n : Nat)
    (htx : tx.length = BUFFER_SIZE) (hn : n + 3 ≤ BUFFER_SIZE) (hbuf : n ≤ buffer.length) :
    hci_submit tx buffer n
      = (0 :: 0 :: 0 :: (buffer.take n ++ tx.drop (3 + n)), some (0 :: 0 :: 0 :: buffer.take n)) := by
  have h3 : 0 + 3 ≤ tx.length ∧ 3 ≤ [0, 0, 0].length := by
    rw [htx]; unfold BUFFER_SIZE; simp
  have hmod : (n + 3) % UINT32_MOD = n + 3 :=
    Nat.mod_eq_of_lt (by unfold BUFFER_SIZE at hn; unfold UINT32_MOD; omega)
  have h4 : 3 + n ≤ (0 :: 0 :: 0 :: tx.drop 3).length ∧ n ≤ buffer.length := by
    simp [htx]; unfold BUFFER_SIZE at *; omega
  have hlt : (buffer.take n).length = n := by rw [List.length_take]; omega
  have e1 : memcpy tx 0 [0, 0, 0] 3 = some (0 :: 0 :: 0 :: tx.drop 3) := by
    unfold memcpy; rw [if_pos h3]; simp
  have e2 : memcpy (0 :: 0 :: 0 :: tx.drop 3) 3 buffer n
      = some (0 :: 0 :: 0 :: (buffer.take n ++ tx.drop (3 + n))) := by
    unfold memcpy; rw [if_pos h4]; simp [Nat.add_comm]
  have e3 : List.take (n + 3) (0 :: 0 :: 0 :: (buffer.take n ++ tx.drop (3 + n)))
      = 0 :: 0 :: 0 :: buffer.take n := by
    have : (0 :: 0 :: 0 :: (buffer.take n ++ tx.drop (3 + n)))
        = (0 :: 0 :: 0 :: buffer.take n) ++ tx.drop (3 + n) := by simp
    rw [this]
    apply List.take_left'
    simp [hlt]
  simp only [hci_submit, e1, e2, hmod, e3]

theorem hci_submit_overrun (tx buffer : List Nat) (n : Nat)
    (htx : tx.length = BUFFER_SIZE) (hn : BUFFER_SIZE < n + 3) :
    (hci_submit tx buffer n).2 = none := by
  have h3 : 0 + 3 ≤ tx.length ∧ 3 ≤ [0, 0, 0].length := by
    rw [htx]; unfold BUFFER_SIZE; simp
  have h4 : ¬ (3 + n ≤ (0 :: 0 :: 0 :: tx.drop 3).length ∧ n ≤ buffer.length) := by
    simp [htx]; unfold BUFFER_SIZE at *; omega
  have e1 : memcpy tx 0 [0, 0, 0] 3 = some (0 :: 0 :: 0 :: tx.drop 3) := by
    unfold memcpy; rw [if_pos h3]; simp
  have e2 : memcpy (0 :: 0 :: 0 :: tx.drop 3) 3 buffer n = none := by
    unfold memcpy; rw [if_neg h4]
  simp only [hci_submit, e1, e2]

theorem hci_submit_length (tx buffer : List Nat) (n : Nat) (htx : tx.length = BUFFER_SIZE) :
    (hci_submit tx buffer n).1.length = BUFFER_SIZE := by
  have h3 : 0 + 3 ≤ tx.length ∧ 3 ≤ [0, 0, 0].length := by
    rw [htx]; unfold BUFFER_SIZE; simp
  have e1 : memcpy tx 0 [0, 0, 0] 3 = some (0 :: 0 :: 0 :: tx.drop 3) := by
    unfold memcpy; rw [if_pos h3]; simp
  have hl1 : (0 :: 0 :: 0 :: tx.drop 3).length = BUFFER_SIZE := by
    simp [htx]; unfold BUFFER_SIZE; rfl
  simp only [hci_submit, e1]
  by_cases h4 : 3 + n ≤ (0 :: 0 :: 0 :: tx.drop 3).length ∧ n ≤ buffer.length
  · have e2 : memcpy (0 :: 0 :: 0 :: tx.drop 3) 3 buffer n
        = some (List.take 3 (0 :: 0 :: 0 :: tx.drop 3) ++ buffer.take n
            ++ List.drop (3 + n) (0 :: 0 :: 0 :: tx.drop 3)) := by
      unfold memcpy; rw [if_pos h4]
    rw [e2]
    simp only [List.length_append, List.length_take, List.length_drop, hl1]
    rw [hl1] at h4
    unfold BUFFER_SIZE at *
    omega
  · have e2 : memcpy (0 :: 0 :: 0 :: tx.drop 3) 3 buffer n = none := by
      unfold memcpy; rw [if_neg h4]
    rw [e2]
    exact hl1

theorem World.init_sized (cdc : List Nat) : (World.init cdc).sized := by
  simp [World.sized, World.init, rx_state_init]

theorem World.init_cdc (cdc : List Nat) : (World.init cdc).cdc = cdc := rfl

theorem World.init_is_zero (cdc : List Nat) : (World.init cdc).rx_state.is_zero := by
  simp [hci_usb_rx_state_t.is_zero, World.init, rx_state_init]

theorem after_handoff_is_zero (w : World) (frame : List Nat) :
    (after_handoff w frame).rx_state.is_zero := by
  simp [hci_usb_rx_state_t.is_zero, after_handoff]

theorem after_handoff_sized (w : World) (frame : List Nat) (hw : w.sized)
    (hf : frame.length ≤ BUFFER_SIZE) : (after_handoff w frame).sized := by
  obtain ⟨h1, h2⟩ := hw
  refine ⟨?_, hci_submit_length _ _ _ h2⟩
  simp only [after_handoff, List.length_append, List.length_drop, h1]
  omega

theorem after_handoff_cdc (w : World) (frame rest : List Nat) (hcdc : w.cdc = frame ++ rest) :
    (after_handoff w frame).cdc = rest := by
  simp [after_handoff, hcdc]

/-- One call with a legal packet of at most `BUFFER_SIZE` bytes at the head of
the FIFO, from a state that is not assembling: the packet is handed off. -/
theorem process_legal_packet (w : World) (p : Packet) (rest : List Nat)
    (hip : w.rx_state.in_progress = false)
    (hlen : w.rx_state.buffer.length = BUFFER_SIZE)
    (hcdc : w.cdc = p.wire ++ rest)
    (hp : p.legal) (hsize : p.wire.length ≤ BUFFER_SIZE) :
    process_usb_to_hci true w
      = some (after_handoff w p.wire, .handoff p.wire (submitted w p.wire)) := by
  obtain ⟨hk, hpre, hpay, hb, _⟩ := hp
  have hwl := p.wire_length
  have hn : min (1 + p.preamble.length + spec_payload_length p.kind p.preamble) BUFFER_SIZE
      = p.wire.length := by
    rw [hpay, ← hwl]; exact Nat.min_eq_left hsize
  have hcdc2 : w.cdc = p.kind :: (p.preamble ++ (p.payload ++ rest)) := by
    rw [hcdc]; simp [Packet.wire]
  have hframe := process_frame w p.kind p.preamble (p.payload ++ rest) hip hlen hcdc2 hk hpre hb
    (by rw [hn, hcdc]; simp)
  rw [hn] at hframe
  have htake : w.cdc.take p.wire.length = p.wire := by
    rw [hcdc]; exact List.take_left _ _
  rw [htake] at hframe
  exact hframe

theorem process_unsupported (w : World) (b : Nat) (rest : List Nat)
    (hip : w.rx_state.in_progress = false)
    (hlen : w.rx_state.buffer.length = BUFFER_SIZE)
    (hcdc : w.cdc = b :: rest)
    (hb : ¬ known_kind b) :
    process_usb_to_hci true w = some (w.type_byte_read b rest, .unsupported b) := by
  have hnone : preamble_size_of b = none := by
    unfold known_kind at hb
    unfold preamble_size_of
    simp only [not_or] at hb
    simp [hb.1, hb.2.1, hb.2.2]
  unfold process_usb_to_hci
  simp only [hip, start_packet_unsupported w b rest hlen hcdc hnone, Bool.not_true,
    Bool.not_false, Bool.false_eq_true, if_false, if_true, World.type_byte_read]

theorem process_short (w : World) (k : Nat) (rest : List Nat)
    (hip : w.rx_state.in_progress = false)
    (hlen : w.rx_state.buffer.length = BUFFER_SIZE)
    (hcdc : w.cdc = k :: rest)
    (hk : known_kind k)
    (hshort : rest.length < spec_preamble_length k) :
    process_usb_to_hci true w = some (w.type_byte_read k rest, .idle) := by
  unfold process_usb_to_hci
  simp only [hip, start_packet_short w k _ rest hlen hcdc (preamble_size_of_known hk) hshort,
    Bool.not_true, Bool.not_false, Bool.false_eq_true, if_false, if_true, World.type_byte_read]

theorem process_empty (w : World)
    (hip : w.rx_state.in_progress = false)
    (hcdc : w.cdc = []) :
    process_usb_to_hci true w = some (w, .idle) := by
  unfold process_usb_to_hci
  simp only [hip, start_packet_empty w hcdc, Bool.not_true,
    Bool.not_false, Bool.false_eq_true, if_false, if_true]

theorem process_disconnected (w : World) : process_usb_to_hci false w = some (w, .idle) := by
  unfold process_usb_to_hci
  simp

theorem drain_stop (fuel : Nat) (w w1 : World) (e : Event)
    (hcall : process_usb_to_hci true w = some (w1, e))
    (hsame : w1.cdc.length = w.cdc.length) (hnone : e.packets = []) :
    drain (fuel + 1) w = some (w1, []) := by
  simp only [drain, hcall]
  rw [if_pos ⟨hsame, hnone⟩]

theorem drain_continue (fuel : Nat) (w w1 w2 : World) (e : Event) (ps : List (List Nat))
    (hcall : process_usb_to_hci true w = some (w1, e))
    (hprogress : ¬ (w1.cdc.length = w.cdc.length ∧ e.packets = []))
    (hrest : drain fuel w1 = some (w2, ps)) :
    drain (fuel + 1) w = some (w2, e.packets ++ ps) := by
  simp only [drain, hcall]
  rw [if_neg hprogress, hrest]

theorem World.type_byte_read_length (w : World) (b : Nat) (rest : List Nat)
    (hlen : w.rx_state.buffer.length = BUFFER_SIZE) :
    (w.type_byte_read b rest).rx_state.buffer.length = BUFFER_SIZE := by
  show (b :: w.rx_state.buffer.drop 1).length = BUFFER_SIZE
  rw [List.length_cons, List.length_drop, hlen]
  rfl

/-- A byte delivered on its own to an assembler that is not assembling never
starts a packet: a known type byte is read into `buffer[0]` and the call returns
at line 83 with `in_progress` still false; any other byte is dropped. -/
theorem drain_single_byte (fuel : Nat) (w : World) (x : Nat)
    (hip : w.rx_state.in_progress = false)
    (hlen : w.rx_state.buffer.length = BUFFER_SIZE)
    (hcdc : w.cdc = [x]) :
    drain (fuel + 2) w = some (w.type_byte_read x [], []) := by
  have hprog (e : Event) : ¬ ((w.type_byte_read x []).cdc.length = w.cdc.length
      ∧ e.packets = []) := by
    rw [hcdc]; simp [World.type_byte_read]
  have hstop : drain (fuel + 1) (w.type_byte_read x []) = some (w.type_byte_read x [], []) :=
    drain_stop fuel _ _ .idle (process_empty _ hip rfl) rfl rfl
  by_cases hk : known_kind x
  · have hshort : ([] : List Nat).length < spec_preamble_length x := by
      rcases hk with h | h | h <;> subst h <;> decide
    exact drain_continue (fuel + 1) w _ _ .idle [] (process_short w x [] hip hlen hcdc hk hshort)
      (hprog _) hstop
  · exact drain_continue (fuel + 1) w _ _ (.unsupported x) []
      (process_unsupported w x [] hip hlen hcdc hk) (hprog _) hstop

/-- Fed one byte at a time, the assembler hands off nothing, whatever the
stream. -/
theorem feed_single_bytes (stream : List Nat) (w : World)
    (hip : w.rx_state.in_progress = false)
    (hlen : w.rx_state.buffer.length = BUFFER_SIZE)
    (hcdc : w.cdc = []) :
    ∃ w1, feed w (stream.map fun b => [b]) = some (w1, []) := by
  induction stream generalizing w with
  | nil => exact ⟨w, rfl⟩
  | cons x xs ih =>
    have hd : (deliver w [x]).cdc = [x] := by simp [deliver, hcdc]
    have hfuel : (deliver w [x]).cdc.length + 2 = 1 + 2 := by rw [hd]; rfl
    have hdrain := drain_single_byte 1 (deliver w [x]) x hip hlen hd
    obtain ⟨w1, hw1⟩ := ih ((deliver w [x]).type_byte_read x []) hip
      (World.type_byte_read_length _ _ _ hlen) rfl
    refine ⟨w1, ?_⟩
    simp only [List.map_cons, feed, hfuel, hdrain, hw1, List.append_nil]


theorem submitted_fits (w : World) (frame : List Nat) (htx : w.hci_tx_buf.length = BUFFER_SIZE)
    (hfit : frame.length + 3 ≤ BUFFER_SIZE) :
    submitted w frame = some (0 :: 0 :: 0 :: frame) := by
  unfold submitted
  rw [hci_submit_fits _ _ _ htx hfit (by simp), List.take_left]

theorem submitted_overrun (w : World) (frame : List Nat)
    (htx : w.hci_tx_buf.length = BUFFER_SIZE) (hover : BUFFER_SIZE < frame.length + 3) :
    submitted w frame = none :=
  hci_submit_overrun _ _ _ htx hover

/-- One call with a legal packet at the head of the FIFO that fits, with its
header, in `hci_tx_buf`: the packet is handed off behind the header. -/
theorem process_fitting_packet (w : World) (p : Packet) (rest : List Nat)
    (hip : w.rx_state.in_progress = false) (hw : w.sized)
    (hcdc : w.cdc = p.wire ++ rest) (hp : p.legal)
    (hfit : p.wire.length + 3 ≤ BUFFER_SIZE) :
    process_usb_to_hci true w
      = some (after_handoff w p.wire, .handoff p.wire (some (0 :: 0 :: 0 :: p.wire))) := by
  have hcall := process_legal_packet w p rest hip hw.1 hcdc hp (by omega)
  rw [submitted_fits _ _ hw.2 hfit] at hcall
  exact hcall

/-- One call with a legal packet at the head of the FIFO that does not fit, with
its header, in `hci_tx_buf`: the event records the overrun. -/
theorem process_overrunning_packet (w : World) (p : Packet) (rest : List Nat)
    (hip : w.rx_state.in_progress = false) (hw : w.sized)
    (hcdc : w.cdc = p.wire ++ rest) (hp : p.legal)
    (hsize : p.wire.length ≤ BUFFER_SIZE) (hover : BUFFER_SIZE < p.wire.length + 3) :
    process_usb_to_hci true w = some (after_handoff w p.wire, .handoff p.wire none) := by
  have hcall := process_legal_packet w p rest hip hw.1 hcdc hp hsize
  rw [submitted_overrun _ _ hw.2 hover] at hcall
  exact hcall

/-- Consecutive calls, with the host connected, on a FIFO that holds legal
packets back to back, each fitting with its header in `hci_tx_buf`, hand them
off one per call, each behind the header. -/
theorem calls_packets_fitting (ps : List Packet) (w : World) (rest : List Nat)
    (hzero : w.rx_state.is_zero) (hsized : w.sized)
    (hcdc : w.cdc = wire_stream ps ++ rest)
    (hps : ∀ p ∈ ps, p.legal ∧ p.wire.length + 3 ≤ BUFFER_SIZE) :
    ∃ w1, calls true ps.length w
        = some (w1, ps.map (fun p => Event.handoff p.wire (some (0 :: 0 :: 0 :: p.wire))))
      ∧ w1.cdc = rest ∧ w1.rx_state.is_zero ∧ w1.sized := by
  induction ps generalizing w with
  | nil => exact ⟨w, rfl, by simpa [wire_stream] using hcdc, hzero, hsized⟩
  | cons p ps ih =>
    obtain ⟨hp, hfit⟩ := hps p (List.mem_cons_self _ _)
    have hcdc1 : w.cdc = p.wire ++ (wire_stream ps ++ rest) := by
      rw [hcdc, wire_stream, List.append_assoc]
    have hcall := process_fitting_packet w p _ hzero.1 hsized hcdc1 hp hfit
    obtain ⟨w1, hcalls, hrest, hz, hs⟩ := ih (after_handoff w p.wire)
      (after_handoff_is_zero _ _) (after_handoff_sized _ _ hsized (by omega))
      (after_handoff_cdc _ _ _ hcdc1) (fun q hq => hps q (List.mem_cons_of_mem _ hq))
    refine ⟨w1, ?_, hrest, hz, hs⟩
    simp only [List.length_cons, calls, hcall, hcalls, List.map_cons]

theorem calls_one (connected : Bool) (w w1 : World) (e : Event)
    (hcall : process_usb_to_hci connected w = some (w1, e)) :
    calls connected 1 w = some (w1, [e]) := by
  simp only [calls, hcall]

theorem calls_two (connected : Bool) (w w1 w2 : World) (e1 e2 : Event)
    (hcall1 : process_usb_to_hci connected w = some (w1, e1))
    (hcall2 : process_usb_to_hci connected w1 = some (w2, e2)) :
    calls connected 2 w = some (w2, [e1, e2]) := by
  simp only [calls, hcall1, hcall2]

/-- A legal packet of kind 1 has at most 259 bytes. -/
theorem Packet.wire_length_kind_one (p : Packet) (hp : p.legal) (hkind : p.kind = 1) :
    p.wire.length ≤ 259 := by
  obtain ⟨_, hpre, hpay, hb, _⟩ := hp
  rw [hkind] at hpre hpay
  rw [p.wire_length, ← hpay, hpre]
  match hq : p.preamble, hpre with
  | [a, b, c], _ =>
    have hc : c < 256 := hb c (by rw [hq]; simp)
    simp [spec_payload_length, spec_preamble_length]
    omega

/-- Lines 62-104 on a known kind with its preamble available, the lengths
written as natural numbers. -/
theorem start_packet_decoded (w : World) (k : Nat) (pre rest : List Nat)
    (hlen : w.rx_state.buffer.length = BUFFER_SIZE)
    (hcdc : w.cdc = k :: (pre ++ rest))
    (hk : known_kind k) (hpre : pre.length = spec_preamble_length k)
    (hb : ∀ b ∈ pre, b < 256) :
    start_packet w = some (.proceed
      { w with
        rx_state :=
          { buffer := k :: pre ++ w.rx_state.buffer.drop (1 + pre.length)
            expected_len := min (1 + pre.length + spec_payload_length k pre) BUFFER_SIZE
            received_len := 1 + pre.length
            in_progress := true }
        cdc := rest }) := by
  have hps : preamble_size_of k = some pre.length := by
    rw [hpre]; exact preamble_size_of_known hk
  have hps2 := preamble_size_of_le hps
  obtain ⟨hpl, hpl2⟩ := payload_len_of_eq k pre (w.rx_state.buffer.drop (1 + pre.length)) hk hpre hb
  have hstart := start_packet_proceed w k pre rest hlen hcdc hps
  have hm1 : (1 + pre.length + spec_payload_length k pre) % UINT32_MOD
      = 1 + pre.length + spec_payload_length k pre :=
    Nat.mod_eq_of_lt (by unfold UINT32_MOD; omega)
  have hm2 : (1 + pre.length) % UINT32_MOD = 1 + pre.length :=
    Nat.mod_eq_of_lt (by unfold UINT32_MOD; omega)
  rw [hpl, hm1, hm2, MIN_eq_min] at hstart
  exact hstart

/-! ## The claims -/

/-- The whole-packet round trip below the overrun: for a legal packet `p` that
fits, with the 3-byte header, in `hci_tx_buf` (at most 2045 bytes on the wire),
one call from the zero state with the host connected and exactly the bytes of
`p` in the FIFO hands off `p`, behind the header `00 00 00`, empties the FIFO,
and leaves `in_progress` false and both lengths zero. -/
theorem whole_packet_round_trip_when_it_fits (p : Packet) (hp : p.legal)
    (hfit : p.wire.length + 3 ≤ BUFFER_SIZE) :
    ∃ w1, process_usb_to_hci true (World.init p.wire)
        = some (w1, .handoff p.wire (some (0 :: 0 :: 0 :: p.wire)))
      ∧ w1.cdc = []
      ∧ consumed p.wire w1 = p.wire
      ∧ w1.rx_state.in_progress = false
      ∧ w1.rx_state.received_len = 0
      ∧ w1.rx_state.expected_len = 0 := by
  have hcall := process_fitting_packet (World.init p.wire) p [] rfl (World.init_sized _)
    (by rw [List.append_nil]; rfl) hp hfit
  have hcdc : (after_handoff (World.init p.wire) p.wire).cdc = [] :=
    after_handoff_cdc _ _ _ (by rw [List.append_nil]; rfl)
  refine ⟨_, hcall, hcdc, ?_, rfl, rfl, rfl⟩
  simp [consumed, hcdc]

/-- C1. The round trip fails for a legal packet of 2048 bytes: on the kind-2
packet `02 00 00 FB 07` with 2043 payload bytes, exactly `BUFFER_SIZE` bytes on
the wire, the call with the host connected completes the packet, and the copy of
its 2048 bytes to `hci_tx_buf + 3` runs past the 2048 bytes of `hci_tx_buf`, so
that no well-defined packet reaches the controller. -/
theorem C1_packet_of_2048_bytes_overruns_hci_tx_buf :
    (Packet.mk 2 [0, 0, 0xFB, 7] (List.replicate 2043 0)).legal
      ∧ (Packet.mk 2 [0, 0, 0xFB, 7] (List.replicate 2043 0)).wire.length = 2048
      ∧ (Packet.mk 2 [0, 0, 0xFB, 7] (List.replicate 2043 0)).wire.length ≤ BUFFER_SIZE
      ∧ ¬ ((Packet.mk 2 [0, 0, 0xFB, 7] (List.replicate 2043 0)).wire.length + 3 ≤ BUFFER_SIZE)
      ∧ ∃ w1, process_usb_to_hci true
            (World.init (Packet.mk 2 [0, 0, 0xFB, 7] (List.replicate 2043 0)).wire)
          = some (w1,
              .handoff (Packet.mk 2 [0, 0, 0xFB, 7] (List.replicate 2043 0)).wire none) := by
  have hlegal : (Packet.mk 2 [0, 0, 0xFB, 7] (List.replicate 2043 0)).legal := by
    refine ⟨by decide, rfl, ?_, by decide, ?_⟩
    · show spec_payload_length 2 [0, 0, 0xFB, 7] = (List.replicate 2043 0).length
      rw [List.length_replicate]
      rfl
    · intro b hb
      rw [List.eq_of_mem_replicate hb]
      decide
  have hwl : (Packet.mk 2 [0, 0, 0xFB, 7] (List.replicate 2043 0)).wire.length = 2048 := by
    rw [Packet.wire_length]
    dsimp only
    rw [List.length_replicate]
    rfl
  have hcall := process_overrunning_packet
    (World.init (Packet.mk 2 [0, 0, 0xFB, 7] (List.replicate 2043 0)).wire)
    (Packet.mk 2 [0, 0, 0xFB, 7] (List.replicate 2043 0)) [] rfl (World.init_sized _)
    (by rw [List.append_nil]; rfl) hlegal (by rw [hwl]; decide) (by rw [hwl]; decide)
  exact ⟨hlegal, hwl, by rw [hwl]; decide, by rw [hwl]; decide, _, hcall⟩

/-- C2. The kind byte is not retained across the preamble wait. On the stream
`01 00 00 02 AA BB` delivered as `01` and then `00 00 02 AA BB`, the first call
reads `01` into `buffer[0]` and returns with `in_progress` still false; the
second call reads the next byte, `00`, over it as a new packet type and drops
it as unsupported, so the 6-byte packet is not handed off on the second call. -/
theorem C2_kind_byte_lost_during_preamble_wait :
    ∃ w1 w2, process_usb_to_hci true (World.init [1]) = some (w1, .idle)
      ∧ w1.cdc = []
      ∧ w1.rx_state.in_progress = false
      ∧ w1.rx_state.buffer.head? = some 1
      ∧ process_usb_to_hci true (deliver w1 [0, 0, 2, 0xAA, 0xBB]) = some (w2, .unsupported 0)
      ∧ w2.cdc = [0, 2, 0xAA, 0xBB]
      ∧ w2.rx_state.in_progress = false
      ∧ w2.rx_state.buffer.head? = some 0 := by
  have hsized := World.init_sized [1]
  have h1 := process_short (World.init [1]) 1 [] rfl hsized.1 rfl (by decide) (by decide)
  have h2 := process_unsupported (deliver ((World.init [1]).type_byte_read 1 []) [0, 0, 2, 0xAA, 0xBB])
    0 [0, 2, 0xAA, 0xBB] rfl (World.type_byte_read_length _ _ _ hsized.1) rfl (by decide)
  exact ⟨_, _, h1, rfl, rfl, rfl, h2, rfl, rfl, rfl⟩

/-- C3. Chunking changes the output: the stream `01 00 00 00` delivered as one
chunk is handed off as one packet, and delivered one byte at a time it yields no
packet at all. -/
theorem C3_chunking_changes_the_packets :
    (∃ w, feed (World.init []) [[1, 0, 0, 0]] = some (w, [[1, 0, 0, 0]]))
      ∧ (∃ w, feed (World.init []) [[1], [0], [0], [0]] = some (w, [])) := by
  constructor
  · have hsized := World.init_sized [1, 0, 0, 0]
    have hcall := process_legal_packet (World.init [1, 0, 0, 0]) (Packet.mk 1 [0, 0, 0] []) []
      rfl hsized.1 rfl (by decide) (by decide)
    have hstop := drain_stop 4 (after_handoff (World.init [1, 0, 0, 0]) [1, 0, 0, 0]) _ .idle
      (process_empty _ rfl rfl) rfl rfl
    have hdrain := drain_continue 5 (World.init [1, 0, 0, 0]) _ _ _ _ hcall
      (by intro h; exact absurd h.2 (by simp [Event.packets, Packet.wire])) hstop
    refine ⟨after_handoff (World.init [1, 0, 0, 0]) [1, 0, 0, 0], ?_⟩
    have hd : deliver (World.init []) [1, 0, 0, 0] = World.init [1, 0, 0, 0] := rfl
    have hfuel : (World.init [1, 0, 0, 0]).cdc.length + 2 = 5 + 1 := rfl
    simp only [feed, hd, hfuel, hdrain]
    rfl
  · exact feed_single_bytes [1, 0, 0, 0] (World.init []) rfl (World.init_sized []).1 rfl

/-- C4, as stated, fails for calls made while the host is not connected: with
`FF` at the head of the FIFO followed by the legal packet `01 00 00 02 AA BB`, a
call with `tud_cdc_n_connected(0)` false returns at line 58, takes no byte and
drops nothing, and two such calls hand off no packet. -/
theorem C4_call_with_host_not_connected_keeps_the_byte :
    ¬ known_kind 0xFF
      ∧ (Packet.mk 1 [0, 0, 2] [0xAA, 0xBB]).legal
      ∧ process_usb_to_hci false (World.init (0xFF :: (Packet.mk 1 [0, 0, 2] [0xAA, 0xBB]).wire))
          = some (World.init (0xFF :: (Packet.mk 1 [0, 0, 2] [0xAA, 0xBB]).wire), .idle)
      ∧ calls false 2 (World.init (0xFF :: (Packet.mk 1 [0, 0, 2] [0xAA, 0xBB]).wire))
          = some (World.init (0xFF :: (Packet.mk 1 [0, 0, 2] [0xAA, 0xBB]).wire),
              [.idle, .idle])
      ∧ consumed (0xFF :: (Packet.mk 1 [0, 0, 2] [0xAA, 0xBB]).wire)
          (World.init (0xFF :: (Packet.mk 1 [0, 0, 2] [0xAA, 0xBB]).wire)) = [] :=
  ⟨by decide, by decide, process_disconnected _,
    calls_two _ _ _ _ _ _ (process_disconnected _) (process_disconnected _), rfl⟩

/-- C4, amended. Resynchronisation on an unsupported tag: for a byte `b` outside
`{1, 2, 3}` at the head of the FIFO, a call made with the host connected, from
the zero state, takes exactly that byte, reports it as unsupported, hands off
nothing and leaves `in_progress` false and both lengths zero. With a legal
packet `p` of kind 1 behind `b`, two such calls hand off exactly `p`, behind the
header `00 00 00`; `p` starts with `01` and not with `b`. -/
theorem C4_resync_on_unsupported_tag (b : Nat) (rest : List Nat) (p : Packet)
    (hb : ¬ known_kind b) (hp : p.legal) (hkind : p.kind = 1)
    (hsize : p.wire.length ≤ BUFFER_SIZE) :
    (∃ w1, process_usb_to_hci true (World.init (b :: rest)) = some (w1, .unsupported b)
        ∧ w1.cdc = rest
        ∧ w1.rx_state.in_progress = false
        ∧ w1.rx_state.received_len = 0
        ∧ w1.rx_state.expected_len = 0)
      ∧ (∃ w2, calls true 2 (World.init (b :: p.wire))
            = some (w2, [.unsupported b, .handoff p.wire (some (0 :: 0 :: 0 :: p.wire))])
          ∧ w2.cdc = []
          ∧ w2.rx_state.in_progress = false
          ∧ w2.rx_state.received_len = 0
          ∧ w2.rx_state.expected_len = 0
          ∧ p.wire.head? = some 1
          ∧ p.wire.head? ≠ some b) := by
  have hfirst (tail : List Nat) := process_unsupported (World.init (b :: tail)) b tail rfl
    (World.init_sized _).1 rfl hb
  constructor
  · exact ⟨_, hfirst rest, rfl, rfl, rfl, rfl⟩
  · have hsecond := process_legal_packet ((World.init (b :: p.wire)).type_byte_read b p.wire)
      p [] rfl (World.type_byte_read_length _ _ _ (World.init_sized _).1)
      (List.append_nil _).symm hp hsize
    have h259 := p.wire_length_kind_one hp hkind
    rw [submitted_fits ((World.init (b :: p.wire)).type_byte_read b p.wire) p.wire
      (World.init_sized (b :: p.wire)).2 (by unfold BUFFER_SIZE; omega)] at hsecond
    have hhead : p.wire.head? = some 1 := by simp [Packet.wire, hkind]
    refine ⟨_, calls_two _ _ _ _ _ _ (hfirst p.wire) hsecond, ?_, rfl, rfl, rfl, hhead, ?_⟩
    · exact after_handoff_cdc _ _ _ (List.append_nil _).symm
    · rw [hhead]
      intro h
      exact hb (Or.inl (Option.some.inj h).symm)

/-- C4, amended, at the tag `FF` followed by the packet `01 00 00 02 AA BB`. -/
theorem C4_resync_on_unsupported_tag_witness :
    (¬ known_kind 0xFF ∧ (Packet.mk 1 [0, 0, 2] [0xAA, 0xBB]).legal
        ∧ (Packet.mk 1 [0, 0, 2] [0xAA, 0xBB]).kind = 1
        ∧ (Packet.mk 1 [0, 0, 2] [0xAA, 0xBB]).wire.length ≤ BUFFER_SIZE)
      ∧ (∃ w1, process_usb_to_hci true (World.init (0xFF :: [7])) = some (w1, .unsupported 0xFF)
          ∧ w1.cdc = [7]
          ∧ w1.rx_state.in_progress = false
          ∧ w1.rx_state.received_len = 0
          ∧ w1.rx_state.expected_len = 0)
      ∧ (∃ w2, calls true 2 (World.init (0xFF :: (Packet.mk 1 [0, 0, 2] [0xAA, 0xBB]).wire))
            = some (w2, [.unsupported 0xFF,
                .handoff (Packet.mk 1 [0, 0, 2] [0xAA, 0xBB]).wire
                  (some (0 :: 0 :: 0 :: (Packet.mk 1 [0, 0, 2] [0xAA, 0xBB]).wire))])
          ∧ w2.cdc = []
          ∧ w2.rx_state.in_progress = false
          ∧ w2.rx_state.received_len = 0
          ∧ w2.rx_state.expected_len = 0
          ∧ (Packet.mk 1 [0, 0, 2] [0xAA, 0xBB]).wire.head? = some 1
          ∧ (Packet.mk 1 [0, 0, 2] [0xAA, 0xBB]).wire.head? ≠ some 0xFF) :=
  ⟨⟨by decide, by decide, rfl, by decide⟩,
    C4_resync_on_unsupported_tag 0xFF [7] (Packet.mk 1 [0, 0, 2] [0xAA, 0xBB])
      (by decide) (by decide) rfl (by decide)⟩


/-- C5. Header decoding: started on a known kind `k` whose preamble `pre` is
available, lines 62-104 store `k :: pre` at the start of `buffer`, set
`received_len = 1 + preamble_length k`, `in_progress = true` and
`expected_len = min (1 + preamble_length k + payload_length) 2048`, where the
preamble length is the one of the table and the payload length is `buffer[3]`
for the kinds 1 and 3 and `buffer[3] + 256 * buffer[4]` for the kind 2. The C
expression `buffer[3] | (buffer[4] << 8)` equals that sum, and neither it nor
the 32-bit sum `1 + preamble_size + payload_len` wraps around. -/
theorem C5_header_decoding (w : World) (k : Nat) (pre rest : List Nat)
    (hlen : w.rx_state.buffer.length = BUFFER_SIZE)
    (hcdc : w.cdc = k :: (pre ++ rest))
    (hk : known_kind k) (hpre : pre.length = spec_preamble_length k)
    (hb : ∀ b ∈ pre, b < 256) :
    ∃ w1, start_packet w = some (.proceed w1)
      ∧ w1.cdc = rest
      ∧ w1.rx_state.buffer.take (1 + pre.length) = k :: pre
      ∧ preamble_size_of k = some (spec_preamble_length k)
      ∧ w1.rx_state.received_len = 1 + spec_preamble_length k
      ∧ w1.rx_state.in_progress = true
      ∧ w1.rx_state.expected_len
          = min (1 + spec_preamble_length k + spec_payload_length k pre) 2048
      ∧ spec_payload_length k pre
          = (if k = 2 then w1.rx_state.buffer.getD 3 0 + 256 * w1.rx_state.buffer.getD 4 0
             else w1.rx_state.buffer.getD 3 0)
      ∧ payload_len_of k w1.rx_state.buffer = spec_payload_length k pre
      ∧ (w1.rx_state.buffer.getD 3 0 ||| (w1.rx_state.buffer.getD 4 0 <<< 8))
          = w1.rx_state.buffer.getD 3 0 + 256 * w1.rx_state.buffer.getD 4 0
      ∧ (k = 2 → (w1.rx_state.buffer.getD 3 0 ||| (w1.rx_state.buffer.getD 4 0 <<< 8))
          < UINT32_MOD)
      ∧ 1 + spec_preamble_length k + spec_payload_length k pre < UINT32_MOD := by
  have hps : preamble_size_of k = some pre.length := by
    rw [hpre]; exact preamble_size_of_known hk
  have hps2 := preamble_size_of_le hps
  obtain ⟨hpl, hpl2⟩ := payload_len_of_eq k pre (w.rx_state.buffer.drop (1 + pre.length)) hk hpre hb
  have hstart := start_packet_proceed w k pre rest hlen hcdc hps
  have hm1 : (1 + pre.length + spec_payload_length k pre) % UINT32_MOD
      = 1 + pre.length + spec_payload_length k pre :=
    Nat.mod_eq_of_lt (by unfold UINT32_MOD; omega)
  have hm2 : (1 + pre.length) % UINT32_MOD = 1 + pre.length :=
    Nat.mod_eq_of_lt (by unfold UINT32_MOD; omega)
  have hb3 : (k :: pre ++ w.rx_state.buffer.drop (1 + pre.length)).getD 3 0 < 256 := by
    have h3 : 3 ≤ pre.length := hps2.1
    match pre, h3, hb with
    | a :: b :: c :: tl, _, hb => exact hb c (by simp)
  have hspec : spec_payload_length k pre
      = (if k = 2 then (k :: pre ++ w.rx_state.buffer.drop (1 + pre.length)).getD 3 0
            + 256 * (k :: pre ++ w.rx_state.buffer.drop (1 + pre.length)).getD 4 0
         else (k :: pre ++ w.rx_state.buffer.drop (1 + pre.length)).getD 3 0) := by
    rcases hk with h | h | h <;> subst h
    · match pre, hpre with
      | [a, b, c], _ => simp [spec_payload_length]
    · match pre, hpre with
      | [a, b, c, d], _ => simp [spec_payload_length]
    · match pre, hpre with
      | [a, b, c], _ => simp [spec_payload_length]
  have hor := lor_shift_eq _ ((k :: pre ++ w.rx_state.buffer.drop (1 + pre.length)).getD 4 0) hb3
  refine ⟨_, hstart, rfl, ?_, by rw [← hpre]; exact hps, ?_, rfl, ?_, hspec, hpl, hor, ?_, ?_⟩
  · show (k :: pre ++ w.rx_state.buffer.drop (1 + pre.length)).take (1 + pre.length) = k :: pre
    exact List.take_left' (by simp [Nat.add_comm])
  · show (1 + pre.length) % UINT32_MOD = 1 + spec_preamble_length k
    rw [hm2, hpre]
  · show MIN ((1 + pre.length + payload_len_of k _) % UINT32_MOD) BUFFER_SIZE = _
    rw [hpl, hm1, MIN_eq_min, hpre]
    rfl
  · intro h2
    rw [hor]
    rw [if_pos h2] at hspec
    rw [← hspec]
    unfold UINT32_MOD
    omega
  · rw [← hpre]
    unfold UINT32_MOD
    omega

/-- C5 at the header `02 10 00 02 00`. -/
theorem C5_header_decoding_witness :
    ((World.init [2, 0x10, 0, 2, 0]).rx_state.buffer.length = BUFFER_SIZE
        ∧ (World.init [2, 0x10, 0, 2, 0]).cdc = 2 :: ([0x10, 0, 2, 0] ++ [])
        ∧ known_kind 2 ∧ [0x10, 0, 2, 0].length = spec_preamble_length 2
        ∧ ∀ b ∈ [0x10, 0, 2, 0], b < 256)
      ∧ ∃ w1, start_packet (World.init [2, 0x10, 0, 2, 0]) = some (.proceed w1)
          ∧ w1.cdc = []
          ∧ w1.rx_state.buffer.take (1 + [0x10, 0, 2, 0].length) = 2 :: [0x10, 0, 2, 0]
          ∧ preamble_size_of 2 = some (spec_preamble_length 2)
          ∧ w1.rx_state.received_len = 1 + spec_preamble_length 2
          ∧ w1.rx_state.in_progress = true
          ∧ w1.rx_state.expected_len
              = min (1 + spec_preamble_length 2 + spec_payload_length 2 [0x10, 0, 2, 0]) 2048
          ∧ spec_payload_length 2 [0x10, 0, 2, 0]
              = (if 2 = 2 then w1.rx_state.buffer.getD 3 0 + 256 * w1.rx_state.buffer.getD 4 0
                 else w1.rx_state.buffer.getD 3 0)
          ∧ payload_len_of 2 w1.rx_state.buffer = spec_payload_length 2 [0x10, 0, 2, 0]
          ∧ (w1.rx_state.buffer.getD 3 0 ||| (w1.rx_state.buffer.getD 4 0 <<< 8))
              = w1.rx_state.buffer.getD 3 0 + 256 * w1.rx_state.buffer.getD 4 0
          ∧ (2 = 2 → (w1.rx_state.buffer.getD 3 0 ||| (w1.rx_state.buffer.getD 4 0 <<< 8))
              < UINT32_MOD)
          ∧ 1 + spec_preamble_length 2 + spec_payload_length 2 [0x10, 0, 2, 0] < UINT32_MOD :=
  ⟨⟨(World.init_sized _).1, rfl, by decide, rfl, by decide⟩,
    C5_header_decoding (World.init [2, 0x10, 0, 2, 0]) 2 [0x10, 0, 2, 0] []
      (World.init_sized _).1 rfl (by decide) rfl (by decide)⟩


/-- C6, as stated, fails: the header `02 10 00 02 00` holds the length bytes
`02 00`, so the code decodes a payload length of 2 and an expected length of 7,
not 512 and 518. Followed by 512 payload bytes (here `11 22` and 510 zero
bytes), the call hands off the 7-byte packet `02 10 00 02 00 11 22` and leaves
the other 510 bytes in the FIFO. -/
theorem C6_header_declares_two_payload_bytes :
    ∃ w1 w2,
      start_packet (World.init ([2, 0x10, 0, 2, 0, 0x11, 0x22] ++ List.replicate 510 0))
          = some (.proceed w1)
        ∧ payload_len_of 2 w1.rx_state.buffer = 2
        ∧ payload_len_of 2 w1.rx_state.buffer ≠ 512
        ∧ w1.rx_state.expected_len = 7
        ∧ w1.rx_state.expected_len ≠ 518
        ∧ process_usb_to_hci true
            (World.init ([2, 0x10, 0, 2, 0, 0x11, 0x22] ++ List.replicate 510 0))
          = some (w2, .handoff [2, 0x10, 0, 2, 0, 0x11, 0x22]
              (some [0, 0, 0, 2, 0x10, 0, 2, 0, 0x11, 0x22]))
        ∧ w2.cdc = List.replicate 510 0 := by
  have hsized := World.init_sized ([2, 0x10, 0, 2, 0, 0x11, 0x22] ++ List.replicate 510 0)
  have hcdc : (World.init ([2, 0x10, 0, 2, 0, 0x11, 0x22] ++ List.replicate 510 0)).cdc
      = 2 :: ([0x10, 0, 2, 0] ++ ([0x11, 0x22] ++ List.replicate 510 0)) := by
    simp only [World.init_cdc, List.cons_append, List.nil_append]
  have hstart := start_packet_decoded
    (World.init ([2, 0x10, 0, 2, 0, 0x11, 0x22] ++ List.replicate 510 0)) 2 [0x10, 0, 2, 0]
    ([0x11, 0x22] ++ List.replicate 510 0) hsized.1 hcdc (by decide) rfl (by decide)
  have hframe := process_frame
    (World.init ([2, 0x10, 0, 2, 0, 0x11, 0x22] ++ List.replicate 510 0)) 2 [0x10, 0, 2, 0]
    ([0x11, 0x22] ++ List.replicate 510 0) rfl hsized.1 hcdc (by decide) rfl (by decide)
    (by rw [World.init_cdc, List.length_append, List.length_replicate]; decide)
  have hn : min (1 + [0x10, 0, 2, 0].length + spec_payload_length 2 [0x10, 0, 2, 0]) BUFFER_SIZE
      = 7 := by decide
  rw [hn] at hframe
  have htake : (World.init ([2, 0x10, 0, 2, 0, 0x11, 0x22] ++ List.replicate 510 0)).cdc.take 7
      = [2, 0x10, 0, 2, 0, 0x11, 0x22] := by
    simp only [World.init_cdc, List.cons_append, List.nil_append, List.take_succ_cons,
      List.take_zero]
  rw [htake, submitted_fits _ _ hsized.2 (by decide)] at hframe
  have hpl : payload_len_of 2
      (2 :: [0x10, 0, 2, 0]
        ++ (World.init ([2, 0x10, 0, 2, 0, 0x11, 0x22]
          ++ List.replicate 510 0)).rx_state.buffer.drop (1 + [0x10, 0, 2, 0].length)) = 2 :=
    (payload_len_of_eq 2 [0x10, 0, 2, 0] _ (by decide) rfl (by decide)).1
  refine ⟨_, _, hstart, hpl, by rw [hpl]; decide, hn, by rw [hn]; decide, hframe, ?_⟩
  simp only [after_handoff, World.init_cdc, List.cons_append, List.nil_append, List.length_cons,
    List.length_nil, List.drop_succ_cons, List.drop_zero]

/-- C6, amended: for the header `02 10 00 02 00` the code computes the payload
length 2 and the expected length 7, so this header followed by exactly 2 payload
bytes is handed off as a single 7-byte packet, given to the controller behind
the header `00 00 00`. -/
theorem C6_header_02_10_00_02_00 (payload : List Nat) (hlen : payload.length = 2) :
    ∃ w1 w2,
      start_packet (World.init ([2, 0x10, 0, 2, 0] ++ payload)) = some (.proceed w1)
        ∧ payload_len_of 2 w1.rx_state.buffer = 2
        ∧ w1.rx_state.expected_len = 7
        ∧ process_usb_to_hci true (World.init ([2, 0x10, 0, 2, 0] ++ payload))
          = some (w2, .handoff ([2, 0x10, 0, 2, 0] ++ payload)
              (some ([0, 0, 0, 2, 0x10, 0, 2, 0] ++ payload)))
        ∧ ([2, 0x10, 0, 2, 0] ++ payload).length = 7
        ∧ w2.cdc = []
        ∧ w2.rx_state.in_progress = false
        ∧ w2.rx_state.received_len = 0
        ∧ w2.rx_state.expected_len = 0 := by
  match payload, hlen with
  | [x, y], _ =>
    have hsized := World.init_sized ([2, 0x10, 0, 2, 0] ++ [x, y])
    have hstart := start_packet_decoded (World.init ([2, 0x10, 0, 2, 0] ++ [x, y])) 2
      [0x10, 0, 2, 0] [x, y] hsized.1 rfl (by decide) rfl (by decide)
    have hframe := process_frame (World.init ([2, 0x10, 0, 2, 0] ++ [x, y])) 2
      [0x10, 0, 2, 0] [x, y] rfl hsized.1 rfl (by decide) rfl (by decide)
      (by simp [World.init_cdc, spec_payload_length, BUFFER_SIZE])
    have hn : min (1 + [0x10, 0, 2, 0].length + spec_payload_length 2 [0x10, 0, 2, 0])
        BUFFER_SIZE = 7 := by decide
    rw [hn] at hframe
    have htake : (World.init ([2, 0x10, 0, 2, 0] ++ [x, y])).cdc.take 7
        = [2, 0x10, 0, 2, 0] ++ [x, y] := rfl
    rw [htake, submitted_fits _ _ hsized.2 (by simp [BUFFER_SIZE])] at hframe
    have hpl : payload_len_of 2
        (2 :: [0x10, 0, 2, 0]
          ++ (World.init ([2, 0x10, 0, 2, 0]
            ++ [x, y])).rx_state.buffer.drop (1 + [0x10, 0, 2, 0].length)) = 2 :=
      (payload_len_of_eq 2 [0x10, 0, 2, 0] _ (by decide) rfl (by decide)).1
    exact ⟨_, _, hstart, hpl, hn, hframe, rfl, rfl, rfl, rfl, rfl⟩

/-- C6, amended, at the stream `02 10 00 02 00 11 22` of the spec. -/
theorem C6_header_02_10_00_02_00_witness :
    [0x11, 0x22].length = 2
      ∧ ∃ w1 w2,
        start_packet (World.init ([2, 0x10, 0, 2, 0] ++ [0x11, 0x22])) = some (.proceed w1)
          ∧ payload_len_of 2 w1.rx_state.buffer = 2
          ∧ w1.rx_state.expected_len = 7
          ∧ process_usb_to_hci true (World.init ([2, 0x10, 0, 2, 0] ++ [0x11, 0x22]))
            = some (w2, .handoff ([2, 0x10, 0, 2, 0] ++ [0x11, 0x22])
                (some ([0, 0, 0, 2, 0x10, 0, 2, 0] ++ [0x11, 0x22])))
          ∧ ([2, 0x10, 0, 2, 0] ++ [0x11, 0x22]).length = 7
          ∧ w2.cdc = []
          ∧ w2.rx_state.in_progress = false
          ∧ w2.rx_state.received_len = 0
          ∧ w2.rx_state.expected_len = 0 :=
  ⟨rfl, C6_header_02_10_00_02_00 [0x11, 0x22] rfl⟩


/-- C7. Truncation ends in an overrun of the send buffer: on the kind-2 header
`02 00 00 00 08`, which declares 2048 payload bytes (`5 + 2048 > 2048`), at the
head of a stream of 2048 bytes, the call with the host connected sets
`expected_len` to exactly 2048 and completes the packet made of the first 2048
bytes of the stream with every write inside `rx_state.buffer`; the copy of these
2048 bytes to `hci_tx_buf + 3` then runs 3 bytes past the end of `hci_tx_buf`,
an out-of-bounds write, so that no well-defined packet is handed off. -/
theorem C7_clamped_packet_overruns_hci_tx_buf :
    2048 < 5 + (0 + 256 * 8)
      ∧ 2048 ≤ (2 :: 0 :: 0 :: 0 :: 8 :: List.replicate 2043 0).length
      ∧ ∃ w1 w2,
        start_packet (World.init (2 :: 0 :: 0 :: 0 :: 8 :: List.replicate 2043 0))
            = some (.proceed w1)
          ∧ w1.rx_state.expected_len = 2048
          ∧ process_usb_to_hci true
              (World.init (2 :: 0 :: 0 :: 0 :: 8 :: List.replicate 2043 0))
            = some (w2,
                .handoff ((2 :: 0 :: 0 :: 0 :: 8 :: List.replicate 2043 0).take 2048) none)
          ∧ ((2 :: 0 :: 0 :: 0 :: 8 :: List.replicate 2043 0).take 2048).length = 2048
          ∧ ¬ (((2 :: 0 :: 0 :: 0 :: 8 :: List.replicate 2043 0).take 2048).length + 3
              ≤ BUFFER_SIZE) := by
  have hsized := World.init_sized (2 :: 0 :: 0 :: 0 :: 8 :: List.replicate 2043 0)
  have hn : min (1 + [0, 0, 0, 8].length + spec_payload_length 2 [0, 0, 0, 8])
      BUFFER_SIZE = 2048 := by decide
  have hstart := start_packet_decoded
    (World.init (2 :: 0 :: 0 :: 0 :: 8 :: List.replicate 2043 0)) 2
    [0, 0, 0, 8] (List.replicate 2043 0) hsized.1 rfl (by decide) rfl (by decide)
  have hlen : (2 :: 0 :: 0 :: 0 :: 8 :: List.replicate 2043 0).length = 2048 := by
    simp only [List.length_cons, List.length_replicate]
  have hframe := process_frame
    (World.init (2 :: 0 :: 0 :: 0 :: 8 :: List.replicate 2043 0)) 2
    [0, 0, 0, 8] (List.replicate 2043 0) rfl hsized.1 rfl (by decide) rfl (by decide)
    (by rw [hn, World.init_cdc, hlen])
  rw [hn, World.init_cdc] at hframe
  have htl : ((2 :: 0 :: 0 :: 0 :: 8 :: List.replicate 2043 0).take 2048).length = 2048 := by
    rw [List.length_take, hlen]
    rfl
  rw [submitted_overrun _ _ hsized.2 (by rw [htl]; decide)] at hframe
  exact ⟨by decide, by rw [hlen], _, _, hstart, hn, hframe, htl, by rw [htl]; decide⟩

/-- C8. A consumed byte that is accounted for nowhere: from the zero state with
the single byte `01` in the FIFO, one call takes the byte from the FIFO, hands
off nothing, drops nothing as unsupported and leaves no packet in progress. -/
theorem C8_known_kind_byte_unaccounted :
    ∃ w1 es, calls true 1 (World.init [1]) = some (w1, es)
      ∧ consumed [1] w1 = [1]
      ∧ accounted es w1.rx_state = [] := by
  have hsized := World.init_sized [1]
  have h1 := process_short (World.init [1]) 1 [] rfl hsized.1 rfl (by decide) (by decide)
  exact ⟨_, _, calls_one _ _ _ _ h1, rfl, rfl⟩


/-- C9, as stated, fails for calls made while the host is not connected: with
the legal packet `01 00 00 02 AA BB` fully available in the FIFO, a call with
`tud_cdc_n_connected(0)` false returns at line 58, hands off nothing and leaves
the 6 bytes in the FIFO. Apart from that gate, a call with the host connected on
the legal packet `02 00 00 FA 07` with 2042 payload bytes (2047 bytes) ends in a
copy that runs past `hci_tx_buf`. -/
theorem C9_call_with_host_not_connected_hands_off_nothing :
    (∀ p ∈ [Packet.mk 1 [0, 0, 2] [0xAA, 0xBB]], p.legal ∧ p.wire.length ≤ BUFFER_SIZE)
      ∧ calls false [Packet.mk 1 [0, 0, 2] [0xAA, 0xBB]].length
          (World.init (wire_stream [Packet.mk 1 [0, 0, 2] [0xAA, 0xBB]]))
        = some (World.init (wire_stream [Packet.mk 1 [0, 0, 2] [0xAA, 0xBB]]), [.idle])
      ∧ (World.init (wire_stream [Packet.mk 1 [0, 0, 2] [0xAA, 0xBB]])).cdc
          = [1, 0, 0, 2, 0xAA, 0xBB]
      ∧ (Packet.mk 2 [0, 0, 0xFA, 7] (List.replicate 2042 0)).legal
      ∧ (Packet.mk 2 [0, 0, 0xFA, 7] (List.replicate 2042 0)).wire.length = 2047
      ∧ ∃ w1, process_usb_to_hci true
            (World.init (wire_stream [Packet.mk 2 [0, 0, 0xFA, 7] (List.replicate 2042 0)]))
          = some (w1,
              .handoff (Packet.mk 2 [0, 0, 0xFA, 7] (List.replicate 2042 0)).wire none) := by
  have hlegal : (Packet.mk 2 [0, 0, 0xFA, 7] (List.replicate 2042 0)).legal := by
    refine ⟨by decide, rfl, ?_, by decide, ?_⟩
    · show spec_payload_length 2 [0, 0, 0xFA, 7] = (List.replicate 2042 0).length
      rw [List.length_replicate]
      rfl
    · intro b hb
      rw [List.eq_of_mem_replicate hb]
      decide
  have hwl : (Packet.mk 2 [0, 0, 0xFA, 7] (List.replicate 2042 0)).wire.length = 2047 := by
    rw [Packet.wire_length]
    dsimp only
    rw [List.length_replicate]
    rfl
  have hcall := process_overrunning_packet
    (World.init (wire_stream [Packet.mk 2 [0, 0, 0xFA, 7] (List.replicate 2042 0)]))
    (Packet.mk 2 [0, 0, 0xFA, 7] (List.replicate 2042 0)) [] rfl (World.init_sized _)
    rfl hlegal (by rw [hwl]; decide) (by rw [hwl]; decide)
  exact ⟨by decide, calls_one _ _ _ _ (process_disconnected _), rfl, hlegal, hwl, _, hcall⟩

/-- C9, amended. One packet per call, in order: with the bytes of the legal
packets `p_1 .. p_k`, each of at most 2045 bytes so that it fits with the 3-byte
header in `hci_tx_buf`, back to back in the FIFO, `k` consecutive calls made
with the host connected, from the zero state, produce exactly `k` events, the
`i`-th being the hand-off of `p_i` behind the header `00 00 00`, and leave the
FIFO empty, `in_progress` false and both lengths zero. -/
theorem C9_one_packet_per_call_in_order (ps : List Packet)
    (hps : ∀ p ∈ ps, p.legal ∧ p.wire.length + 3 ≤ BUFFER_SIZE) :
    ∃ w1, calls true ps.length (World.init (wire_stream ps))
        = some (w1, ps.map (fun p => Event.handoff p.wire (some (0 :: 0 :: 0 :: p.wire))))
      ∧ w1.cdc = []
      ∧ w1.rx_state.in_progress = false
      ∧ w1.rx_state.received_len = 0
      ∧ w1.rx_state.expected_len = 0 := by
  obtain ⟨w1, hcalls, hcdc, hzero, _⟩ := calls_packets_fitting ps (World.init (wire_stream ps)) []
    (World.init_is_zero _) (World.init_sized _) (by rw [List.append_nil]; rfl) hps
  exact ⟨w1, hcalls, hcdc, hzero.1, hzero.2.1, hzero.2.2⟩

/-- C9, amended, at the packets `01 00 00 02 AA BB`, `02 10 00 01 00 07` and
`03 00 00 00`. -/
theorem C9_one_packet_per_call_in_order_witness :
    (∀ p ∈ [Packet.mk 1 [0, 0, 2] [0xAA, 0xBB], Packet.mk 2 [0x10, 0, 1, 0] [7],
          Packet.mk 3 [0, 0, 0] []], p.legal ∧ p.wire.length + 3 ≤ BUFFER_SIZE)
      ∧ ∃ w1,
        calls true 3
            (World.init [1, 0, 0, 2, 0xAA, 0xBB, 2, 0x10, 0, 1, 0, 7, 3, 0, 0, 0])
          = some (w1,
              [.handoff [1, 0, 0, 2, 0xAA, 0xBB] (some [0, 0, 0, 1, 0, 0, 2, 0xAA, 0xBB]),
                .handoff [2, 0x10, 0, 1, 0, 7] (some [0, 0, 0, 2, 0x10, 0, 1, 0, 7]),
                .handoff [3, 0, 0, 0] (some [0, 0, 0, 3, 0, 0, 0])])
          ∧ w1.cdc = []
          ∧ w1.rx_state.in_progress = false
          ∧ w1.rx_state.received_len = 0
          ∧ w1.rx_state.expected_len = 0 :=
  ⟨by decide,
    C9_one_packet_per_call_in_order
      [Packet.mk 1 [0, 0, 2] [0xAA, 0xBB], Packet.mk 2 [0x10, 0, 1, 0] [7],
        Packet.mk 3 [0, 0, 0] []]
      (by decide)⟩

/-- C10. The header copy overruns `hci_tx_buf` for a completed packet of 2046
bytes: on the legal kind-2 packet `02 00 00 F9 07` with 2041 payload bytes, the
call completes the packet, and the `memcpy` of its 2046 bytes to
`hci_tx_buf + 3` does not fit in the 2048 bytes of `hci_tx_buf`, so no
well-defined `00 00 00 ++ packet` is given to the controller. -/
theorem C10_header_copy_overruns_hci_tx_buf :
    (Packet.mk 2 [0, 0, 0xF9, 7] (List.replicate 2041 0)).legal
      ∧ (Packet.mk 2 [0, 0, 0xF9, 7] (List.replicate 2041 0)).wire.length = 2046
      ∧ ∃ w1, process_usb_to_hci true
            (World.init (Packet.mk 2 [0, 0, 0xF9, 7] (List.replicate 2041 0)).wire)
          = some (w1,
              .handoff (Packet.mk 2 [0, 0, 0xF9, 7] (List.replicate 2041 0)).wire none) := by
  have hlegal : (Packet.mk 2 [0, 0, 0xF9, 7] (List.replicate 2041 0)).legal := by
    refine ⟨by decide, rfl, ?_, by decide, ?_⟩
    · show spec_payload_length 2 [0, 0, 0xF9, 7] = (List.replicate 2041 0).length
      rw [List.length_replicate]
      rfl
    · intro b hb
      rw [List.eq_of_mem_replicate hb]
      decide
  have hwl : (Packet.mk 2 [0, 0, 0xF9, 7] (List.replicate 2041 0)).wire.length = 2046 := by
    rw [Packet.wire_length]
    dsimp only
    rw [List.length_replicate]
    rfl
  have hcall := process_legal_packet
    (World.init (Packet.mk 2 [0, 0, 0xF9, 7] (List.replicate 2041 0)).wire)
    (Packet.mk 2 [0, 0, 0xF9, 7] (List.replicate 2041 0)) [] rfl (World.init_sized _).1
    (by rw [List.append_nil]; rfl) hlegal (by rw [hwl]; decide)
  rw [submitted_overrun _ _ (World.init_sized _).2 (by rw [hwl]; decide)] at hcall
  exact ⟨hlegal, hwl, _, hcall⟩

/-- The counterpart of C10 below the overrun: a completed packet of at most 2045
bytes is given to the controller behind the header `00 00 00`, `n + 3` bytes in
all. -/
theorem header_prepended_when_it_fits (w : World) (p : Packet) (rest : List Nat)
    (hip : w.rx_state.in_progress = false) (hw : w.sized)
    (hcdc : w.cdc = p.wire ++ rest) (hp : p.legal)
    (hfit : p.wire.length + 3 ≤ BUFFER_SIZE) :
    ∃ w1, process_usb_to_hci true w
        = some (w1, .handoff p.wire (some ([0, 0, 0] ++ p.wire)))
      ∧ ([0, 0, 0] ++ p.wire).length = p.wire.length + 3 := by
  have hcall := process_legal_packet w p rest hip hw.1 hcdc hp (by omega)
  rw [submitted_fits _ _ hw.2 hfit] at hcall
  exact ⟨_, hcall, by simp only [List.length_append, List.length_cons, List.length_nil]; omega⟩

theorem strip_len_eq (len : Nat) (h3 : 3 ≤ len) (hmax : len < UINT32_MOD) :
    strip_len len = len - 3 := by
  unfold strip_len
  have : len + UINT32_MOD - 3 = (len - 3) + UINT32_MOD := by omega
  rw [this, Nat.add_mod_right, Nat.mod_eq_of_lt (by omega)]

/-- C11. Header strip on the reverse pump: after a successful controller read
(`res = 0`) that reports a length `len` with `3 <= len` (and at most the
`BUFFER_SIZE` bytes the read was given room for), `process_hci_to_usb` gives the
host-facing write exactly `hci_buffer[3 .. len)`, of length `len - 3`, computed
without underflow, and flushes if and only if the write reports more than 0
bytes; for `len = 3` the data is empty. When `res` is not 0 or `len` is 0,
nothing is written and nothing is flushed. -/
theorem C11_header_strip_on_reverse_pump (r : HciRead) (tud_cdc_n_write : List Nat → Nat)
    (hr : r.within_max_len) :
    (r.res = 0 → 3 ≤ r.len →
        strip_len r.len = r.len - 3
          ∧ ((r.hci_buffer.drop 3).take (r.len - 3)).length = r.len - 3
          ∧ process_hci_to_usb r tud_cdc_n_write
              = some (.wrote ((r.hci_buffer.drop 3).take (r.len - 3))
                  (tud_cdc_n_write ((r.hci_buffer.drop 3).take (r.len - 3)))
                  (decide (tud_cdc_n_write ((r.hci_buffer.drop 3).take (r.len - 3)) > 0)))
          ∧ (r.len = 3 → (r.hci_buffer.drop 3).take (r.len - 3) = []))
      ∧ (r.res ≠ 0 ∨ r.len = 0 → process_hci_to_usb r tud_cdc_n_write = some .nothing) := by
  obtain ⟨hbuf, hmax⟩ := hr
  constructor
  · intro hres h3
    have hle := hmax hres
    have hstrip : strip_len r.len = r.len - 3 :=
      strip_len_eq r.len h3 (by unfold BUFFER_SIZE at hle; unfold UINT32_MOD; omega)
    refine ⟨hstrip, ?_, ?_, ?_⟩
    · rw [List.length_take, List.length_drop, hbuf]
      unfold BUFFER_SIZE at *
      omega
    · unfold process_hci_to_usb
      rw [if_pos ⟨hres, by omega⟩, hstrip, if_pos (by rw [hbuf]; omega)]
      by_cases hw : tud_cdc_n_write ((r.hci_buffer.drop 3).take (r.len - 3)) > 0
      · simp only [hw, if_true, decide_True]
      · simp only [hw, if_false, decide_False]
    · intro h
      rw [h]
      rfl
  · intro h
    unfold process_hci_to_usb
    rw [if_neg]
    rintro ⟨h1, h2⟩
    rcases h with h | h
    · exact h h1
    · omega

/-- C11 at a read of the 7 bytes `00 00 00 04 0E 01 00` and a write that accepts
all it is given: the 4 bytes behind the header are written and flushed. -/
theorem C11_header_strip_on_reverse_pump_witness :
    (HciRead.mk 0 7 ([0, 0, 0, 4, 0x0E, 1, 0] ++ List.replicate 2041 0)).within_max_len
      ∧ process_hci_to_usb
          (HciRead.mk 0 7 ([0, 0, 0, 4, 0x0E, 1, 0] ++ List.replicate 2041 0)) List.length
        = some (.wrote [4, 0x0E, 1, 0] 4 true) :=
  ⟨⟨by rw [List.length_append, List.length_replicate]; rfl, fun _ => by decide⟩,
    ((C11_header_strip_on_reverse_pump
      (HciRead.mk 0 7 ([0, 0, 0, 4, 0x0E, 1, 0] ++ List.replicate 2041 0)) List.length
      ⟨by rw [List.length_append, List.length_replicate]; rfl, fun _ => by decide⟩).1
      rfl (by decide)).2.2.1⟩

/-- C12. The header strip is not guarded against short reads: after a successful
read that reports `len = 1` (or 2), the length given to the host-facing write is
`(len - 3) mod 2^32 = 4294967294` (or 4294967295), far more than `len`, and the
range `hci_buffer[3 ..]` of that length does not lie inside the 2048-byte
`hci_buffer`. -/
theorem C12_short_read_underflows (tud_cdc_n_write : List Nat → Nat) :
    strip_len 1 = 4294967294
      ∧ strip_len 2 = 4294967295
      ∧ ¬ strip_len 1 ≤ 1
      ∧ ¬ strip_len 2 ≤ 2
      ∧ process_hci_to_usb (HciRead.mk 0 1 (List.replicate BUFFER_SIZE 0)) tud_cdc_n_write = none
      ∧ process_hci_to_usb (HciRead.mk 0 2 (List.replicate BUFFER_SIZE 0)) tud_cdc_n_write
          = none := by
  have h1 : strip_len 1 = 4294967294 := rfl
  have h2 : strip_len 2 = 4294967295 := rfl
  refine ⟨h1, h2, by rw [h1]; decide, by rw [h2]; decide, ?_, ?_⟩
  · unfold process_hci_to_usb
    rw [if_pos ⟨rfl, by decide⟩, if_neg]
    show ¬ 3 + strip_len 1 ≤ (List.replicate BUFFER_SIZE 0).length
    rw [h1, List.length_replicate]
    decide
  · unfold process_hci_to_usb
    rw [if_pos ⟨rfl, by decide⟩, if_neg]
    show ¬ 3 + strip_len 2 ≤ (List.replicate BUFFER_SIZE 0).length
    rw [h2, List.length_replicate]
    decide

/-! ## One call from any well-formed state -/

theorem drop_min_length (l : List Nat) (r : Nat) : l.drop (min r l.length) = l.drop r := by
  rcases Nat.le_total r l.length with h | h
  · rw [Nat.min_eq_left h]
  · rw [Nat.min_eq_right h, List.drop_length, List.drop_of_length_le h]

/-- Lines 108-117 from a state with `received_len <= expected_len <= 2048`. -/
theorem read_payload_eq (w : World)
    (hlen : w.rx_state.buffer.length = BUFFER_SIZE)
    (hle : w.rx_state.received_len ≤ w.rx_state.expected_len)
    (hcap : w.rx_state.expected_len ≤ BUFFER_SIZE) :
    read_payload w = some w.payload_read := by
  have hrl : (w.rx_state.buffer.take w.rx_state.received_len).length = w.rx_state.received_len := by
    rw [List.length_take, hlen]; omega
  have hsplit : w.rx_state.buffer
      = w.rx_state.buffer.take w.rx_state.received_len
        ++ w.rx_state.buffer.drop w.rx_state.received_len :=
    (List.take_append_drop _ _).symm
  have h := read_payload_append w _ _ hsplit hrl.symm (by rw [hrl]; exact hle)
    (by rw [← hsplit, hlen]; exact hcap)
    (by rw [← hsplit, hlen]; unfold BUFFER_SIZE UINT32_MOD; decide)
  rw [h]
  simp only [hrl, List.drop_drop, World.payload_read, take_min_length, drop_min_length]

theorem finish_packet_eq (w : World)
    (hlen : w.rx_state.buffer.length = BUFFER_SIZE)
    (hle : w.rx_state.received_len ≤ w.rx_state.expected_len)
    (hcap : w.rx_state.expected_len ≤ BUFFER_SIZE) :
    finish_packet w = some (complete_packet w.payload_read) := by
  unfold finish_packet
  rw [read_payload_eq w hlen hle hcap]

theorem process_in_progress (w : World) (hip : w.rx_state.in_progress = true) :
    process_usb_to_hci true w = finish_packet w := by
  unfold process_usb_to_hci
  simp [hip]

theorem process_start (w : World) (k : Nat) (pre rest : List Nat)
    (hip : w.rx_state.in_progress = false)
    (hlen : w.rx_state.buffer.length = BUFFER_SIZE)
    (hcdc : w.cdc = k :: (pre ++ rest))
    (hk : known_kind k) (hpre : pre.length = spec_preamble_length k)
    (hb : ∀ b ∈ pre, b < 256) :
    process_usb_to_hci true w = finish_packet (w.started k pre rest) := by
  unfold process_usb_to_hci
  simp only [hip, start_packet_decoded w k pre rest hlen hcdc hk hpre hb, Bool.not_true,
    Bool.not_false, Bool.false_eq_true, if_false, if_true, World.started]

theorem spec_preamble_length_le {k : Nat} (hk : known_kind k) :
    3 ≤ spec_preamble_length k ∧ spec_preamble_length k ≤ 4 := by
  rcases hk with h | h | h <;> subst h <;> decide

theorem World.started_assembling (w : World) (k : Nat) (pre rest : List Nat)
    (hs : w.sized) (hk : known_kind k) (hpre : pre.length = spec_preamble_length k)
    (hrest : ∀ b ∈ rest, b < 256) :
    (w.started k pre rest).assembling := by
  have hps := spec_preamble_length_le hk
  refine ⟨⟨?_, hs.2⟩, hrest, rfl, ⟨k, pre, hk, hpre, ?_, Nat.le_refl _, rfl⟩, ?_⟩
  · show (k :: pre ++ w.rx_state.buffer.drop (1 + pre.length)).length = BUFFER_SIZE
    rw [List.length_append, List.length_cons, List.length_drop, hs.1]
    unfold BUFFER_SIZE
    omega
  · show (k :: pre ++ w.rx_state.buffer.drop (1 + pre.length)).take (1 + pre.length) = k :: pre
    exact List.take_left' (by rw [List.length_cons]; omega)
  · show 1 + pre.length ≤ min (1 + pre.length + spec_payload_length k pre) BUFFER_SIZE
    unfold BUFFER_SIZE
    omega

theorem header_ok_expected_le {s : hci_usb_rx_state_t} (h : header_ok s) :
    s.expected_len ≤ BUFFER_SIZE := by
  obtain ⟨k, pre, _, _, _, _, he⟩ := h
  rw [he]
  exact Nat.min_le_right _ _

theorem World.payload_read_assembling (w : World) (h : w.assembling) :
    w.payload_read.assembling := by
  obtain ⟨hs, hb, hip, ⟨k, pre, hk, hpre, htake, hrecv, hexp⟩, hle⟩ := h
  have hcap : w.rx_state.expected_len ≤ BUFFER_SIZE := by
    rw [hexp]; exact Nat.min_le_right _ _
  have hrl : (w.rx_state.buffer.take w.rx_state.received_len).length = w.rx_state.received_len := by
    rw [List.length_take, hs.1]; omega
  refine ⟨⟨?_, hs.2⟩, ?_, hip, ⟨k, pre, hk, hpre, ?_, ?_, hexp⟩, ?_⟩
  · show (w.rx_state.buffer.take w.rx_state.received_len
        ++ w.cdc.take (min (w.rx_state.expected_len - w.rx_state.received_len) w.cdc.length)
        ++ w.rx_state.buffer.drop
            (w.rx_state.received_len
              + min (w.rx_state.expected_len - w.rx_state.received_len) w.cdc.length)).length
      = BUFFER_SIZE
    rw [List.length_append, List.length_append, hrl, List.length_take, List.length_drop, hs.1]
    omega
  · intro b hb1
    exact hb b (List.mem_of_mem_drop hb1)
  · show (w.rx_state.buffer.take w.rx_state.received_len
        ++ w.cdc.take (min (w.rx_state.expected_len - w.rx_state.received_len) w.cdc.length)
        ++ w.rx_state.buffer.drop
            (w.rx_state.received_len
              + min (w.rx_state.expected_len - w.rx_state.received_len) w.cdc.length)).take
          (1 + pre.length) = k :: pre
    rw [List.append_assoc, List.take_append_of_le_length (by rw [hrl]; exact hrecv),
      List.take_take, Nat.min_eq_left hrecv, htake]
  · show 1 + pre.length ≤ w.rx_state.received_len
        + min (w.rx_state.expected_len - w.rx_state.received_len) w.cdc.length
    omega
  · show w.rx_state.received_len
        + min (w.rx_state.expected_len - w.rx_state.received_len) w.cdc.length
      ≤ w.rx_state.expected_len
    omega

/-- The packet in the buffer of a world at line 120 with `received_len =
expected_len` has the shape of a packet. -/
theorem packet_shape_of_header_ok (s : hci_usb_rx_state_t) (hlen : s.buffer.length = BUFFER_SIZE)
    (h : header_ok s) (hle : s.received_len ≤ s.expected_len) :
    packet_shape (s.buffer.take s.expected_len) := by
  obtain ⟨k, pre, hk, hpre, htake, hrecv, hexp⟩ := h
  have hcap : s.expected_len ≤ BUFFER_SIZE := by
    rw [hexp]; exact Nat.min_le_right _ _
  have hl : (s.buffer.take s.expected_len).length = s.expected_len := by
    rw [List.length_take, hlen]; omega
  have hhead : (s.buffer.take s.expected_len).take (1 + pre.length) = k :: pre := by
    rw [List.take_take, Nat.min_eq_left (by omega), htake]
  have hsplit : s.buffer.take s.expected_len
      = (k :: pre) ++ (s.buffer.take s.expected_len).drop (1 + pre.length) := by
    rw [← hhead, List.take_append_drop]
  have h0 : (s.buffer.take s.expected_len).getD 0 0 = k := by
    rw [hsplit]; rfl
  have hpre2 : ((s.buffer.take s.expected_len).drop 1).take (spec_preamble_length k) = pre := by
    rw [hsplit, ← hpre]
    show (pre ++ _).take pre.length = pre
    exact List.take_left _ _
  refine ⟨by rw [hl]; omega, by rw [hl]; exact hcap, by rw [h0]; exact hk, ?_⟩
  rw [h0, hpre2, hl, hexp, hpre]

theorem complete_packet_wf (w : World) (h : w.assembling) :
    (complete_packet w).1.wf ∧ (complete_packet w).2.ok (complete_packet w).1 := by
  obtain ⟨hs, hb, hip, hh, hle⟩ := h
  unfold complete_packet
  by_cases heq : w.rx_state.received_len = w.rx_state.expected_len
  · rw [if_pos heq]
    refine ⟨⟨⟨hs.1, hci_submit_length _ _ _ hs.2⟩, hb, fun _ => ⟨rfl, rfl⟩, ?_⟩, ?_⟩
    · intro hcontra
      exact absurd hcontra (by simp)
    · exact ⟨packet_shape_of_header_ok _ hs.1 hh hle, rfl, rfl, rfl⟩
  · rw [if_neg heq]
    refine ⟨⟨hs, hb, ?_, fun _ => ⟨Nat.lt_of_le_of_ne hle heq, hh⟩⟩, trivial⟩
    intro hcontra
    rw [hip] at hcontra
    exact absurd hcontra (by simp)

theorem finish_packet_wf (w : World) (h : w.assembling) :
    ∃ w1 e, finish_packet w = some (w1, e) ∧ w1.wf ∧ e.ok w1 := by
  have hcap := header_ok_expected_le h.2.2.2.1
  have h2 := complete_packet_wf _ (World.payload_read_assembling w h)
  exact ⟨_, _, finish_packet_eq w h.1.1 h.2.2.2.2 hcap, h2.1, h2.2⟩

theorem World.type_byte_read_wf (w : World) (b : Nat) (rest : List Nat) (hwf : w.wf)
    (hip : w.rx_state.in_progress = false) (hrest : ∀ x ∈ rest, x < 256) :
    (w.type_byte_read b rest).wf ∧ (w.type_byte_read b rest).rx_state.is_zero := by
  obtain ⟨hs, _, hz, _⟩ := hwf
  refine ⟨⟨⟨World.type_byte_read_length w b rest hs.1, hs.2⟩, hrest, fun _ => hz hip, ?_⟩,
    hip, (hz hip).1, (hz hip).2⟩
  intro hcontra
  have : w.rx_state.in_progress = true := hcontra
  rw [hip] at this
  exact absurd this (by simp)

theorem World.init_wf (cdc : List Nat) (hb : ∀ b ∈ cdc, b < 256) : (World.init cdc).wf :=
  ⟨World.init_sized cdc, hb, fun _ => ⟨rfl, rfl⟩, fun h => absurd h (by simp [World.init, rx_state_init])⟩

theorem deliver_wf (w : World) (chunk : List Nat) (hwf : w.wf) (hb : ∀ b ∈ chunk, b < 256) :
    (deliver w chunk).wf := by
  obtain ⟨hs, hcdc, hz, hp⟩ := hwf
  refine ⟨hs, ?_, hz, hp⟩
  intro b hmem
  rcases List.mem_append.mp hmem with h | h
  · exact hcdc b h
  · exact hb b h

/-- One call from a well-formed world: it returns, the world it leaves is
well-formed, and its event keeps its promise. -/
theorem process_wf (connected : Bool) (w : World) (hwf : w.wf) :
    ∃ w1 e, process_usb_to_hci connected w = some (w1, e) ∧ w1.wf ∧ e.ok w1 := by
  cases connected with
  | false => exact ⟨w, .idle, process_disconnected w, hwf, trivial⟩
  | true =>
    obtain ⟨hs, hb, hz, hp⟩ := hwf
    cases hip : w.rx_state.in_progress with
    | true =>
      rw [process_in_progress w hip]
      exact finish_packet_wf w ⟨hs, hb, hip, (hp hip).2, Nat.le_of_lt (hp hip).1⟩
    | false =>
      cases hcdc : w.cdc with
      | nil => exact ⟨w, .idle, process_empty w hip hcdc, ⟨hs, hb, hz, hp⟩, trivial⟩
      | cons b rest =>
        have hrest : ∀ x ∈ rest, x < 256 := fun x hx =>
          hb x (by rw [hcdc]; exact List.mem_cons_of_mem _ hx)
        have htb := World.type_byte_read_wf w b rest ⟨hs, hb, hz, hp⟩ hip hrest
        by_cases hk : known_kind b
        · by_cases hshort : rest.length < spec_preamble_length b
          · exact ⟨_, _, process_short w b rest hip hs.1 hcdc hk hshort, htb.1, trivial⟩
          · have hpl : (rest.take (spec_preamble_length b)).length = spec_preamble_length b := by
              rw [List.length_take]; omega
            have hcdc2 : w.cdc = b :: (rest.take (spec_preamble_length b)
                ++ rest.drop (spec_preamble_length b)) := by
              rw [List.take_append_drop]; exact hcdc
            rw [process_start w b _ _ hip hs.1 hcdc2 hk hpl
              (fun x hx => hrest x (List.mem_of_mem_take hx))]
            exact finish_packet_wf _ (World.started_assembling w b _ _ hs hk hpl
              (fun x hx => hrest x (List.mem_of_mem_drop hx)))
        · exact ⟨_, _, process_unsupported w b rest hip hs.1 hcdc hk, htb.1, htb.2⟩

theorem Event.ok_handoff {e : Event} {w1 : World} {p : List Nat} {tx : Option (List Nat)}
    (h : e.ok w1) (he : e = .handoff p tx) : packet_shape p ∧ w1.rx_state.is_zero := by
  subst he
  exact h

/-- A script of calls and byte deliveries from a well-formed world runs to its
end, reaches a well-formed world, and hands off only packets of the right
shape. -/
theorem run_wf (script : List Action) (w : World) (hwf : w.wf)
    (hscript : ∀ a ∈ script, a.bytes_ok) :
    ∃ w1 es, run w script = some (w1, es) ∧ w1.wf
      ∧ ∀ p tx, Event.handoff p tx ∈ es → packet_shape p := by
  induction script generalizing w with
  | nil => exact ⟨w, [], rfl, hwf, fun _ _ h => absurd h (List.not_mem_nil _)⟩
  | cons a script ih =>
    have htail : ∀ x ∈ script, x.bytes_ok := fun x hx => hscript x (List.mem_cons_of_mem _ hx)
    cases a with
    | deliver chunk =>
      have hchunk : ∀ b ∈ chunk, b < 256 := hscript (.deliver chunk) (List.mem_cons_self _ _)
      exact ih (deliver w chunk) (deliver_wf w chunk hwf hchunk) htail
    | call connected =>
      obtain ⟨w1, e, hcall, hwf1, hok⟩ := process_wf connected w hwf
      obtain ⟨w2, es, hrun, hwf2, hes⟩ := ih w1 hwf1 htail
      refine ⟨w2, e :: es, ?_, hwf2, ?_⟩
      · simp only [run, hcall, hrun]
      · intro p tx hmem
        rcases List.mem_cons.mp hmem with h | h
        · exact (Event.ok_handoff hok h.symm).1
        · exact hes p tx h

theorem World.payload_read_empty (w : World) (hcdc : w.cdc = [])
    (hle : w.rx_state.received_len ≤ w.rx_state.buffer.length) : w.payload_read = w := by
  obtain ⟨⟨buffer, expected_len, received_len, in_progress⟩, tx, cdc⟩ := w
  simp only at hcdc hle
  subst hcdc
  simp [World.payload_read]

/-- A call from a well-formed world whose FIFO is empty changes nothing. -/
theorem process_wf_empty (connected : Bool) (w : World) (hwf : w.wf) (hcdc : w.cdc = []) :
    process_usb_to_hci connected w = some (w, .idle) := by
  cases connected with
  | false => exact process_disconnected w
  | true =>
    obtain ⟨hs, hb, hz, hp⟩ := hwf
    cases hip : w.rx_state.in_progress with
    | false => exact process_empty w hip hcdc
    | true =>
      obtain ⟨hlt, hh⟩ := hp hip
      have hcap := header_ok_expected_le hh
      rw [process_in_progress w hip, finish_packet_eq w hs.1 (Nat.le_of_lt hlt) hcap,
        World.payload_read_empty w hcdc (by rw [hs.1]; omega)]
      unfold complete_packet
      rw [if_neg (Nat.ne_of_lt hlt)]

theorem calls_idle (connected : Bool) (w : World)
    (h : process_usb_to_hci connected w = some (w, .idle)) (n : Nat) :
    calls connected n w = some (w, List.replicate n .idle) := by
  induction n with
  | zero => rfl
  | succ n ih => simp only [calls, h, ih, List.replicate_succ]

theorem stalled_world_reached :
    run (World.init [1, 0, 0, 1]) [.call true] = some (stalled_world, [.idle]) := by
  have hs := World.init_sized [1, 0, 0, 1]
  have hcall := process_start (World.init [1, 0, 0, 1]) 1 [0, 0, 1] [] rfl hs.1 rfl
    (by decide) rfl (by decide)
  have hasm := World.started_assembling (World.init [1, 0, 0, 1]) 1 [0, 0, 1] [] hs
    (by decide) rfl (by intro b hb; exact absurd hb (List.not_mem_nil _))
  rw [finish_packet_eq _ hasm.1.1 hasm.2.2.2.2 (header_ok_expected_le hasm.2.2.2.1)] at hcall
  have hne : ¬ (stalled_world.rx_state.received_len = stalled_world.rx_state.expected_len) := by
    decide
  have hcomplete : complete_packet stalled_world = (stalled_world, .idle) := by
    unfold complete_packet
    rw [if_neg hne]
  simp only [run, hcall]
  rw [show ((World.init [1, 0, 0, 1]).started 1 [0, 0, 1] []).payload_read = stalled_world from rfl,
    hcomplete]

theorem run_unique_wf (cdc : List Nat) (script : List Action) (w : World) (es : List Event)
    (hcdc : ∀ b ∈ cdc, b < 256) (hscript : ∀ a ∈ script, a.bytes_ok)
    (hrun : run (World.init cdc) script = some (w, es)) :
    w.wf ∧ ∀ p tx, Event.handoff p tx ∈ es → packet_shape p := by
  obtain ⟨w1, es1, hrun1, hwf1, hes1⟩ := run_wf script (World.init cdc) (World.init_wf cdc hcdc) hscript
  rw [hrun1] at hrun
  have h := Option.some.inj hrun
  have hw : w1 = w := congrArg Prod.fst h
  have he : es1 = es := congrArg Prod.snd h
  subst hw he
  exact ⟨hwf1, hes1⟩

/-- C13. Shape of every handed-off packet: whatever bytes the FIFO holds at the
start and whatever calls (host connected or not) and byte deliveries follow, the
script runs to its end and every packet handed off has a length `n` with
`1 <= n <= 2048`, a first byte that is one of the kinds 1, 2, 3, and
`n = min (1 + preamble_length + payload_length) 2048` for the preamble length of
that kind and the payload length decoded from the packet's own preamble. -/
theorem C13_shape_of_handed_off_packets (cdc : List Nat) (script : List Action)
    (hcdc : ∀ b ∈ cdc, b < 256) (hscript : ∀ a ∈ script, a.bytes_ok) :
    ∃ w es, run (World.init cdc) script = some (w, es)
      ∧ ∀ p tx, Event.handoff p tx ∈ es →
          1 ≤ p.length ∧ p.length ≤ 2048
            ∧ (p.getD 0 0 = 1 ∨ p.getD 0 0 = 2 ∨ p.getD 0 0 = 3)
            ∧ p.length
                = min (1 + spec_preamble_length (p.getD 0 0)
                    + spec_payload_length (p.getD 0 0)
                        ((p.drop 1).take (spec_preamble_length (p.getD 0 0)))) 2048 := by
  obtain ⟨w, es, hrun, _, hes⟩ := run_wf script (World.init cdc) (World.init_wf cdc hcdc) hscript
  exact ⟨w, es, hrun, fun p tx hmem => hes p tx hmem⟩

/-- C13 at the FIFO content `01 00 00 02 AA BB` and one call with the host
connected. -/
theorem C13_shape_of_handed_off_packets_witness :
    ((∀ b ∈ [1, 0, 0, 2, 0xAA, 0xBB], b < 256) ∧ ∀ a ∈ [Action.call true], a.bytes_ok)
      ∧ ∃ w es, run (World.init [1, 0, 0, 2, 0xAA, 0xBB]) [Action.call true] = some (w, es)
          ∧ ∀ p tx, Event.handoff p tx ∈ es →
              1 ≤ p.length ∧ p.length ≤ 2048
                ∧ (p.getD 0 0 = 1 ∨ p.getD 0 0 = 2 ∨ p.getD 0 0 = 3)
                ∧ p.length
                    = min (1 + spec_preamble_length (p.getD 0 0)
                        + spec_payload_length (p.getD 0 0)
                            ((p.drop 1).take (spec_preamble_length (p.getD 0 0)))) 2048 :=
  ⟨⟨by decide, fun a ha => by rw [List.mem_singleton.mp ha]; trivial⟩,
    C13_shape_of_handed_off_packets [1, 0, 0, 2, 0xAA, 0xBB] [Action.call true] (by decide)
      (fun a ha => by rw [List.mem_singleton.mp ha]; trivial)⟩

/-- C15. Assembly-state invariant: `received_len <= expected_len <= 2048`, and
`in_progress = false` if and only if `received_len = 0` and `expected_len = 0`,
hold in the initial state and in every state reached from it by calls, with the
host connected or not, and byte deliveries; every such script runs to its end. -/
theorem C15_assembly_state_invariant (cdc : List Nat) (script : List Action)
    (hcdc : ∀ b ∈ cdc, b < 256) (hscript : ∀ a ∈ script, a.bytes_ok) :
    ((World.init cdc).rx_state.received_len ≤ (World.init cdc).rx_state.expected_len
        ∧ (World.init cdc).rx_state.expected_len ≤ 2048
        ∧ ((World.init cdc).rx_state.in_progress = false ↔
            (World.init cdc).rx_state.received_len = 0
              ∧ (World.init cdc).rx_state.expected_len = 0))
      ∧ ∃ w es, run (World.init cdc) script = some (w, es)
          ∧ w.rx_state.received_len ≤ w.rx_state.expected_len
          ∧ w.rx_state.expected_len ≤ 2048
          ∧ (w.rx_state.in_progress = false ↔
              w.rx_state.received_len = 0 ∧ w.rx_state.expected_len = 0) := by
  have hinv (w : World) (hwf : w.wf) :
      w.rx_state.received_len ≤ w.rx_state.expected_len
        ∧ w.rx_state.expected_len ≤ 2048
        ∧ (w.rx_state.in_progress = false ↔
            w.rx_state.received_len = 0 ∧ w.rx_state.expected_len = 0) := by
    obtain ⟨_, _, hz, hp⟩ := hwf
    cases hip : w.rx_state.in_progress with
    | false =>
      obtain ⟨h1, h2⟩ := hz hip
      exact ⟨by omega, by omega, fun _ => ⟨h1, h2⟩, fun _ => rfl⟩
    | true =>
      obtain ⟨hlt, hh⟩ := hp hip
      have hcap := header_ok_expected_le hh
      refine ⟨Nat.le_of_lt hlt, hcap, fun h => absurd h (by simp), fun h => ?_⟩
      omega
  obtain ⟨w, es, hrun, hwf, _⟩ := run_wf script (World.init cdc) (World.init_wf cdc hcdc) hscript
  exact ⟨hinv _ (World.init_wf cdc hcdc), w, es, hrun, hinv w hwf⟩

/-- C15 at the FIFO content `01 00 00 01`, a call with the host connected, the
delivery of `AA` and a call with the host not connected. -/
theorem C15_assembly_state_invariant_witness :
    ((∀ b ∈ [1, 0, 0, 1], b < 256)
        ∧ ∀ a ∈ [Action.call true, Action.deliver [0xAA], Action.call false], a.bytes_ok)
      ∧ ∃ w es, run (World.init [1, 0, 0, 1])
            [Action.call true, Action.deliver [0xAA], Action.call false] = some (w, es)
          ∧ w.rx_state.received_len ≤ w.rx_state.expected_len
          ∧ w.rx_state.expected_len ≤ 2048
          ∧ (w.rx_state.in_progress = false ↔
              w.rx_state.received_len = 0 ∧ w.rx_state.expected_len = 0) :=
  ⟨⟨by decide, by
      intro a ha
      simp only [List.mem_cons, List.mem_singleton, List.not_mem_nil, or_false] at ha
      rcases ha with h | h | h <;> subst h
      · trivial
      · exact fun b hb => by rw [List.mem_singleton.mp hb]; decide
      · trivial⟩,
    (C15_assembly_state_invariant [1, 0, 0, 1]
      [Action.call true, Action.deliver [0xAA], Action.call false] (by decide) (by
        intro a ha
        simp only [List.mem_cons, List.mem_singleton, List.not_mem_nil, or_false] at ha
        rcases ha with h | h | h <;> subst h
        · trivial
        · exact fun b hb => by rw [List.mem_singleton.mp hb]; decide
        · trivial)).2⟩

theorem resumed_world_reached :
    run (World.init [1, 0, 0, 1]) [.call true, .deliver [0xAA]]
      = some (resumed_world, [.idle]) := by
  have h := stalled_world_reached
  simp only [run] at h ⊢
  cases hcall : process_usb_to_hci true (World.init [1, 0, 0, 1]) with
  | none => rw [hcall] at h; cases h
  | some r =>
    rw [hcall] at h
    obtain ⟨w1, e⟩ := r
    simp only [Option.some.injEq, Prod.mk.injEq, List.cons.injEq, and_true] at h
    obtain ⟨hw, he⟩ := h
    subst hw he
    rfl

theorem script_bytes_example :
    ∀ a ∈ [Action.call true, Action.deliver [0xAA]], a.bytes_ok := by
  intro a ha
  simp only [List.mem_cons, List.mem_singleton, List.not_mem_nil, or_false] at ha
  rcases ha with h | h <;> subst h
  · trivial
  · exact fun b hb => by rw [List.mem_singleton.mp hb]; decide

/-- C17, as stated, fails for a call made while the host is not connected: in
the state reached from the FIFO content `01 00 00 01` by one call and the
delivery of `AA`, a packet is in progress, one byte is awaited and one is
available, so `m = 1`; a call with `tud_cdc_n_connected(0)` false returns at
line 58, takes no byte and changes nothing. -/
theorem C17_call_with_host_not_connected_takes_nothing :
    run (World.init [1, 0, 0, 1]) [.call true, .deliver [0xAA]]
        = some (resumed_world, [.idle])
      ∧ resumed_world.rx_state.in_progress = true
      ∧ resumed_world.cdc = [0xAA]
      ∧ min (resumed_world.rx_state.expected_len - resumed_world.rx_state.received_len)
          resumed_world.cdc.length = 1
      ∧ process_usb_to_hci false resumed_world = some (resumed_world, .idle)
      ∧ consumed resumed_world.cdc resumed_world = [] :=
  ⟨resumed_world_reached, rfl, rfl, by decide, process_disconnected resumed_world, rfl⟩

/-- C17, amended: in a state reached from the zero state with
`in_progress = true`, and with `a` bytes in the FIFO, a call made with the host
connected takes exactly `m = min (expected_len - received_len) a` bytes from
the head of the FIFO, writes them in order to `buffer[received_len ..
received_len + m)`, leaves the rest of `buffer` unchanged, advances
`received_len` by `m` (the state `w1` at line 119), and hands off a packet, the
first `expected_len` bytes of `buffer`, if and only if the new `received_len`
equals `expected_len`. -/
theorem C17_in_progress_step (cdc : List Nat) (script : List Action) (w : World)
    (es : List Event) (hcdc : ∀ b ∈ cdc, b < 256) (hscript : ∀ a ∈ script, a.bytes_ok)
    (hrun : run (World.init cdc) script = some (w, es))
    (hip : w.rx_state.in_progress = true) :
    ∃ w1 w2 e, read_payload w = some w1
      ∧ complete_packet w1 = (w2, e)
      ∧ process_usb_to_hci true w = some (w2, e)
      ∧ w1.cdc = w.cdc.drop (min (w.rx_state.expected_len - w.rx_state.received_len) w.cdc.length)
      ∧ w2.cdc = w1.cdc
      ∧ consumed w.cdc w2
          = w.cdc.take (min (w.rx_state.expected_len - w.rx_state.received_len) w.cdc.length)
      ∧ w1.rx_state.buffer.take w.rx_state.received_len
          = w.rx_state.buffer.take w.rx_state.received_len
      ∧ (w1.rx_state.buffer.drop w.rx_state.received_len).take
            (min (w.rx_state.expected_len - w.rx_state.received_len) w.cdc.length)
          = w.cdc.take (min (w.rx_state.expected_len - w.rx_state.received_len) w.cdc.length)
      ∧ w1.rx_state.buffer.drop
            (w.rx_state.received_len
              + min (w.rx_state.expected_len - w.rx_state.received_len) w.cdc.length)
          = w.rx_state.buffer.drop
            (w.rx_state.received_len
              + min (w.rx_state.expected_len - w.rx_state.received_len) w.cdc.length)
      ∧ w1.rx_state.received_len
          = w.rx_state.received_len
            + min (w.rx_state.expected_len - w.rx_state.received_len) w.cdc.length
      ∧ w1.rx_state.expected_len = w.rx_state.expected_len
      ∧ ((∃ p tx, e = .handoff p tx) ↔ w1.rx_state.received_len = w1.rx_state.expected_len)
      ∧ (∀ p tx, e = .handoff p tx → p = w1.rx_state.buffer.take w1.rx_state.expected_len) := by
  obtain ⟨⟨hs, hb, hz, hp⟩, _⟩ := run_unique_wf cdc script w es hcdc hscript hrun
  obtain ⟨hlt, hh⟩ := hp hip
  have hcap := header_ok_expected_le hh
  have hread := read_payload_eq w hs.1 (Nat.le_of_lt hlt) hcap
  have hcall : process_usb_to_hci true w = some (complete_packet w.payload_read) := by
    rw [process_in_progress w hip, finish_packet_eq w hs.1 (Nat.le_of_lt hlt) hcap]
  have hrl : (w.rx_state.buffer.take w.rx_state.received_len).length = w.rx_state.received_len := by
    rw [List.length_take, hs.1]; omega
  have hml : (w.cdc.take (min (w.rx_state.expected_len - w.rx_state.received_len)
      w.cdc.length)).length
      = min (w.rx_state.expected_len - w.rx_state.received_len) w.cdc.length := by
    rw [List.length_take]; omega
  have hcdc2 : (complete_packet w.payload_read).1.cdc = w.payload_read.cdc := by
    unfold complete_packet
    split <;> rfl
  refine ⟨w.payload_read, (complete_packet w.payload_read).1, (complete_packet w.payload_read).2,
    hread, rfl, hcall, rfl, hcdc2, ?_, ?_, ?_, ?_, rfl, rfl, ?_, ?_⟩
  · unfold consumed
    rw [hcdc2]
    show w.cdc.take (w.cdc.length - (w.cdc.drop _).length) = _
    rw [List.length_drop]
    congr 1
    omega
  · show (w.rx_state.buffer.take w.rx_state.received_len ++ _ ++ _).take _ = _
    rw [List.append_assoc, List.take_left' hrl]
  · show ((w.rx_state.buffer.take w.rx_state.received_len ++ _ ++ _).drop _).take _ = _
    rw [List.append_assoc, List.drop_left' hrl, List.take_left' hml]
  · show (w.rx_state.buffer.take w.rx_state.received_len
        ++ w.cdc.take (min (w.rx_state.expected_len - w.rx_state.received_len) w.cdc.length)
        ++ _).drop _ = _
    exact List.drop_left' (by rw [List.length_append, hrl, hml])
  · unfold complete_packet
    by_cases heq : w.payload_read.rx_state.received_len = w.payload_read.rx_state.expected_len
    · rw [if_pos heq]
      exact ⟨fun _ => heq, fun _ => ⟨_, _, rfl⟩⟩
    · rw [if_neg heq]
      exact ⟨fun ⟨p, tx, h⟩ => (by cases h), fun h => absurd h heq⟩
  · intro p tx
    unfold complete_packet
    by_cases heq : w.payload_read.rx_state.received_len = w.payload_read.rx_state.expected_len
    · rw [if_pos heq]
      intro h
      injection h with h1 _
      exact h1.symm
    · rw [if_neg heq]
      intro h
      cases h

/-- C17, amended, at the state reached from the FIFO content `01 00 00 01` by
one call and the delivery of `AA`. -/
theorem C17_in_progress_step_witness :
    ((∀ b ∈ [1, 0, 0, 1], b < 256)
        ∧ (∀ a ∈ [Action.call true, Action.deliver [0xAA]], a.bytes_ok)
        ∧ run (World.init [1, 0, 0, 1]) [.call true, .deliver [0xAA]]
            = some (resumed_world, [.idle])
        ∧ resumed_world.rx_state.in_progress = true)
      ∧ ∃ w1 w2 e, read_payload resumed_world = some w1
          ∧ complete_packet w1 = (w2, e)
          ∧ process_usb_to_hci true resumed_world = some (w2, e)
          ∧ w1.cdc = resumed_world.cdc.drop
              (min (resumed_world.rx_state.expected_len - resumed_world.rx_state.received_len)
                resumed_world.cdc.length)
          ∧ w1.rx_state.received_len
              = resumed_world.rx_state.received_len
                + min (resumed_world.rx_state.expected_len - resumed_world.rx_state.received_len)
                    resumed_world.cdc.length
          ∧ ((∃ p tx, e = .handoff p tx) ↔
              w1.rx_state.received_len = w1.rx_state.expected_len) := by
  refine ⟨⟨by decide, script_bytes_example, resumed_world_reached, rfl⟩, ?_⟩
  obtain ⟨w1, w2, e, h1, h2, h3, h4, _, _, _, _, _, h10, _, h12, _⟩ :=
    C17_in_progress_step [1, 0, 0, 1] [.call true, .deliver [0xAA]] resumed_world [.idle]
      (by decide) script_bytes_example resumed_world_reached rfl
  exact ⟨w1, w2, e, h1, h2, h3, h4, h10, h12⟩

/-- C18. Empty source is a no-op: in every state reached from the zero state,
in progress or not, a call with nothing in the FIFO, with the host connected or
not, hands off nothing, takes nothing and leaves the whole world (buffer,
`expected_len`, `received_len`, `in_progress`) unchanged; so does any number of
such calls, and a stalled packet stays in progress. -/
theorem C18_empty_source_is_a_no_op (cdc : List Nat) (script : List Action) (w : World)
    (es : List Event) (hcdc : ∀ b ∈ cdc, b < 256) (hscript : ∀ a ∈ script, a.bytes_ok)
    (hrun : run (World.init cdc) script = some (w, es))
    (hempty : w.cdc = []) (connected : Bool) :
    process_usb_to_hci connected w = some (w, .idle)
      ∧ ∀ n, calls connected n w = some (w, List.replicate n .idle) := by
  obtain ⟨hwf, _⟩ := run_unique_wf cdc script w es hcdc hscript hrun
  have h := process_wf_empty connected w hwf hempty
  exact ⟨h, calls_idle connected w h⟩

/-- C18 at the stalled world reached from the FIFO content `01 00 00 01` by one
call: the packet is in progress, the FIFO is empty, and a further call changes
nothing. -/
theorem C18_empty_source_is_a_no_op_witness :
    ((∀ b ∈ [1, 0, 0, 1], b < 256) ∧ (∀ a ∈ [Action.call true], a.bytes_ok)
        ∧ run (World.init [1, 0, 0, 1]) [.call true] = some (stalled_world, [.idle])
        ∧ stalled_world.cdc = [])
      ∧ stalled_world.rx_state.in_progress = true
      ∧ process_usb_to_hci true stalled_world = some (stalled_world, .idle)
      ∧ ∀ n, calls true n stalled_world = some (stalled_world, List.replicate n .idle) :=
  ⟨⟨by decide, fun a ha => by rw [List.mem_singleton.mp ha]; trivial, stalled_world_reached,
      rfl⟩,
    rfl,
    C18_empty_source_is_a_no_op [1, 0, 0, 1] [.call true] stalled_world [.idle] (by decide)
      (fun a ha => by rw [List.mem_singleton.mp ha]; trivial) stalled_world_reached rfl true⟩

/-! ## Stale buffer contents do not matter -/

theorem World.alike_type_byte_read (w w' : World) (b : Nat) (rest : List Nat)
    (h : w.alike w') (hzero : w.rx_state.received_len = 0) :
    (w.type_byte_read b rest).alike (w'.type_byte_read b rest) := by
  obtain ⟨_, he, hr, hi, _, hs, hs'⟩ := h
  refine ⟨rfl, he, hr, hi, ?_, ⟨World.type_byte_read_length w b rest hs.1, hs.2⟩,
    ⟨World.type_byte_read_length w' b rest hs'.1, hs'.2⟩⟩
  show (b :: w.rx_state.buffer.drop 1).take w.rx_state.received_len
    = (b :: w'.rx_state.buffer.drop 1).take w'.rx_state.received_len
  rw [← hr, hzero]
  rfl

theorem World.alike_started (w w' : World) (k : Nat) (pre rest : List Nat)
    (hs : w.sized) (hs' : w'.sized) (hk : known_kind k)
    (hpre : pre.length = spec_preamble_length k) (hrest : ∀ b ∈ rest, b < 256) :
    (w.started k pre rest).alike (w'.started k pre rest) := by
  have h1 := World.started_assembling w k pre rest hs hk hpre hrest
  have h2 := World.started_assembling w' k pre rest hs' hk hpre hrest
  refine ⟨rfl, rfl, rfl, rfl, ?_, h1.1, h2.1⟩
  show (k :: pre ++ w.rx_state.buffer.drop (1 + pre.length)).take (1 + pre.length)
    = (k :: pre ++ w'.rx_state.buffer.drop (1 + pre.length)).take (1 + pre.length)
  rw [List.take_left' (by rw [List.length_cons]; omega),
    List.take_left' (by rw [List.length_cons]; omega)]

theorem World.alike_payload_read (w w' : World) (h : w.alike w')
    (hle : w.rx_state.received_len ≤ w.rx_state.expected_len)
    (hcap : w.rx_state.expected_len ≤ BUFFER_SIZE) :
    w.payload_read.alike w'.payload_read := by
  obtain ⟨hc, he, hr, hi, ht, hs, hs'⟩ := h
  have hrl : (w.rx_state.buffer.take w.rx_state.received_len).length = w.rx_state.received_len := by
    rw [List.length_take, hs.1]; omega
  have hrl' : (w'.rx_state.buffer.take w'.rx_state.received_len).length
      = w'.rx_state.received_len := by
    rw [List.length_take, hs'.1]; omega
  have hlen (v : World) (hv : v.sized) (hle : v.rx_state.received_len ≤ v.rx_state.expected_len)
      (hcap : v.rx_state.expected_len ≤ BUFFER_SIZE) : v.payload_read.sized := by
    refine ⟨?_, hv.2⟩
    show (v.rx_state.buffer.take v.rx_state.received_len
        ++ v.cdc.take (min (v.rx_state.expected_len - v.rx_state.received_len) v.cdc.length)
        ++ v.rx_state.buffer.drop
            (v.rx_state.received_len
              + min (v.rx_state.expected_len - v.rx_state.received_len) v.cdc.length)).length
      = BUFFER_SIZE
    rw [List.length_append, List.length_append, List.length_take, List.length_take,
      List.length_drop, hv.1]
    omega
  refine ⟨?_, he, ?_, hi, ?_, hlen w hs hle hcap, hlen w' hs' (by omega) (by omega)⟩
  · show w.cdc.drop _ = w'.cdc.drop _
    rw [hc, he, hr]
  · show w.rx_state.received_len + _ = w'.rx_state.received_len + _
    rw [hc, he, hr]
  · show (w.rx_state.buffer.take w.rx_state.received_len
        ++ w.cdc.take (min (w.rx_state.expected_len - w.rx_state.received_len) w.cdc.length)
        ++ _).take
          (w.rx_state.received_len
            + min (w.rx_state.expected_len - w.rx_state.received_len) w.cdc.length)
      = (w'.rx_state.buffer.take w'.rx_state.received_len
        ++ w'.cdc.take (min (w'.rx_state.expected_len - w'.rx_state.received_len) w'.cdc.length)
        ++ _).take
          (w'.rx_state.received_len
            + min (w'.rx_state.expected_len - w'.rx_state.received_len) w'.cdc.length)
    rw [List.take_left' (by rw [List.length_append, hrl, List.length_take]; omega),
      List.take_left' (by rw [List.length_append, hrl', List.length_take]; omega),
      ht, hc, he, hr]

/-- The data given to the controller depends on the packet only, not on what
`hci_tx_buf` or the rest of `buffer` held. -/
theorem hci_submit_alike (tx tx' buffer buffer' : List Nat) (n : Nat)
    (htx : tx.length = BUFFER_SIZE) (htx' : tx'.length = BUFFER_SIZE)
    (hb : buffer.length = BUFFER_SIZE) (hb' : buffer'.length = BUFFER_SIZE)
    (hn : n ≤ BUFFER_SIZE) (htake : buffer.take n = buffer'.take n) :
    (hci_submit tx buffer n).2 = (hci_submit tx' buffer' n).2 := by
  by_cases hfit : n + 3 ≤ BUFFER_SIZE
  · rw [hci_submit_fits tx buffer n htx hfit (by omega),
      hci_submit_fits tx' buffer' n htx' hfit (by omega), htake]
  · rw [hci_submit_overrun tx buffer n htx (by omega),
      hci_submit_overrun tx' buffer' n htx' (by omega)]

theorem complete_packet_alike (w w' : World) (h : w.alike w')
    (hcap : w.rx_state.expected_len ≤ BUFFER_SIZE) :
    (complete_packet w).2 = (complete_packet w').2
      ∧ (complete_packet w).1.alike (complete_packet w').1 := by
  obtain ⟨hc, he, hr, hi, ht, hs, hs'⟩ := h
  unfold complete_packet
  by_cases heq : w.rx_state.received_len = w.rx_state.expected_len
  · have heq' : w'.rx_state.received_len = w'.rx_state.expected_len := by omega
    rw [if_pos heq, if_pos heq']
    have htake : w.rx_state.buffer.take w.rx_state.expected_len
        = w'.rx_state.buffer.take w'.rx_state.expected_len := by
      rw [← heq, ← heq', ht]
    have hsub := hci_submit_alike w.hci_tx_buf w'.hci_tx_buf w.rx_state.buffer w'.rx_state.buffer
      w.rx_state.expected_len hs.2 hs'.2 hs.1 hs'.1 hcap (by rw [htake, he])
    refine ⟨?_, hc, rfl, rfl, rfl, rfl, ⟨hs.1, hci_submit_length _ _ _ hs.2⟩,
      ⟨hs'.1, hci_submit_length _ _ _ hs'.2⟩⟩
    show Event.handoff _ _ = Event.handoff _ _
    rw [htake, hsub, he]
  · have heq' : ¬ w'.rx_state.received_len = w'.rx_state.expected_len := by omega
    rw [if_neg heq, if_neg heq']
    exact ⟨rfl, hc, he, hr, hi, ht, hs, hs'⟩

theorem finish_packet_alike (w w' : World) (h : w.alike w')
    (hle : w.rx_state.received_len ≤ w.rx_state.expected_len)
    (hcap : w.rx_state.expected_len ≤ BUFFER_SIZE) :
    ∃ w1 w1' e, finish_packet w = some (w1, e) ∧ finish_packet w' = some (w1', e)
      ∧ w1.alike w1' := by
  have hp := World.alike_payload_read w w' h hle hcap
  have hc := complete_packet_alike _ _ hp hcap
  obtain ⟨_, he, hr, _, _, hs, hs'⟩ := h
  refine ⟨_, _, (complete_packet w.payload_read).2,
    finish_packet_eq w hs.1 hle hcap, ?_, hc.2⟩
  rw [finish_packet_eq w' hs'.1 (by omega) (by omega)]
  show some ((complete_packet w'.payload_read).1, (complete_packet w'.payload_read).2) = _
  rw [hc.1]

/-- One call from two worlds that differ only in stale bytes: the same event,
and worlds that again differ only in stale bytes. -/
theorem process_alike (connected : Bool) (w w' : World) (hwf : w.wf) (h : w.alike w') :
    ∃ w1 w1' e, process_usb_to_hci connected w = some (w1, e)
      ∧ process_usb_to_hci connected w' = some (w1', e) ∧ w1.alike w1' := by
  cases connected with
  | false => exact ⟨w, w', .idle, process_disconnected w, process_disconnected w', h⟩
  | true =>
    obtain ⟨hs, hb, hz, hp⟩ := hwf
    have ⟨hc, he, hr, hi, ht, _, hs'⟩ := h
    cases hip : w.rx_state.in_progress with
    | true =>
      have hip' : w'.rx_state.in_progress = true := by rw [← hi, hip]
      obtain ⟨hlt, hh⟩ := hp hip
      rw [process_in_progress w hip, process_in_progress w' hip']
      exact finish_packet_alike w w' h (Nat.le_of_lt hlt) (header_ok_expected_le hh)
    | false =>
      have hip' : w'.rx_state.in_progress = false := by rw [← hi, hip]
      cases hcdc : w.cdc with
      | nil =>
        exact ⟨w, w', .idle, process_empty w hip hcdc, process_empty w' hip' (by rw [← hc, hcdc]), h⟩
      | cons b rest =>
        have hcdc' : w'.cdc = b :: rest := by rw [← hc, hcdc]
        have hrest : ∀ x ∈ rest, x < 256 := fun x hx =>
          hb x (by rw [hcdc]; exact List.mem_cons_of_mem _ hx)
        have htb := World.alike_type_byte_read w w' b rest h (hz hip).1
        by_cases hk : known_kind b
        · by_cases hshort : rest.length < spec_preamble_length b
          · exact ⟨_, _, _, process_short w b rest hip hs.1 hcdc hk hshort,
              process_short w' b rest hip' hs'.1 hcdc' hk hshort, htb⟩
          · have hpl : (rest.take (spec_preamble_length b)).length = spec_preamble_length b := by
              rw [List.length_take]; omega
            have hsplit : b :: (rest.take (spec_preamble_length b)
                ++ rest.drop (spec_preamble_length b)) = b :: rest := by
              rw [List.take_append_drop]
            have hpre : ∀ x ∈ rest.take (spec_preamble_length b), x < 256 :=
              fun x hx => hrest x (List.mem_of_mem_take hx)
            have hdrop : ∀ x ∈ rest.drop (spec_preamble_length b), x < 256 :=
              fun x hx => hrest x (List.mem_of_mem_drop hx)
            rw [process_start w b _ _ hip hs.1 (by rw [hsplit]; exact hcdc) hk hpl hpre,
              process_start w' b _ _ hip' hs'.1 (by rw [hsplit]; exact hcdc') hk hpl hpre]
            have hasm := World.started_assembling w b _ _ hs hk hpl hdrop
            exact finish_packet_alike _ _ (World.alike_started w w' b _ _ hs hs' hk hpl hdrop)
              hasm.2.2.2.2 (header_ok_expected_le hasm.2.2.2.1)
        · exact ⟨_, _, _, process_unsupported w b rest hip hs.1 hcdc hk,
            process_unsupported w' b rest hip' hs'.1 hcdc' hk, htb⟩

theorem deliver_alike (w w' : World) (chunk : List Nat) (h : w.alike w') :
    (deliver w chunk).alike (deliver w' chunk) := by
  obtain ⟨hc, he, hr, hi, ht, hs, hs'⟩ := h
  refine ⟨?_, he, hr, hi, ht, hs, hs'⟩
  show w.cdc ++ chunk = w'.cdc ++ chunk
  rw [hc]

/-- A script run from two worlds that differ only in stale bytes: both runs
reach their end, with the same events, and end in worlds that differ only in
stale bytes. -/
theorem run_alike (script : List Action) (w w' : World) (hwf : w.wf) (h : w.alike w')
    (hscript : ∀ a ∈ script, a.bytes_ok) :
    ∃ w1 w1' es, run w script = some (w1, es) ∧ run w' script = some (w1', es)
      ∧ w1.alike w1' := by
  induction script generalizing w w' with
  | nil => exact ⟨w, w', [], rfl, rfl, h⟩
  | cons a script ih =>
    have htail : ∀ x ∈ script, x.bytes_ok := fun x hx => hscript x (List.mem_cons_of_mem _ hx)
    cases a with
    | deliver chunk =>
      have hchunk : ∀ b ∈ chunk, b < 256 := hscript (.deliver chunk) (List.mem_cons_self _ _)
      exact ih (deliver w chunk) (deliver w' chunk) (deliver_wf w chunk hwf hchunk)
        (deliver_alike w w' chunk h) htail
    | call connected =>
      obtain ⟨w1, w1', e, hcall, hcall', halike⟩ := process_alike connected w w' hwf h
      obtain ⟨v, e2, hcall2, hwf1, _⟩ := process_wf connected w hwf
      rw [hcall] at hcall2
      have hv : w1 = v := congrArg Prod.fst (Option.some.inj hcall2)
      subst hv
      obtain ⟨w2, w2', es, hrun, hrun', halike2⟩ := ih w1 w1' hwf1 halike htail
      refine ⟨w2, w2', e :: es, ?_, ?_, halike2⟩
      · simp only [run, hcall, hrun]
      · simp only [run, hcall', hrun']

/-- C14. The send buffer does not fit every completed packet: on a kind-2 header
that declares 65535 payload bytes, followed by 2043 bytes, the call completes a
packet clamped to `expected_len = 2048`, so that `expected_len + 3 <= 2048`
fails at the copy to `hci_tx_buf + 3`: a copy of 2048 bytes to offset 3 of a
2048-byte array does not lie inside it, and the hand-off event records it. -/
theorem C14_copy_runs_past_hci_tx_buf :
    ∃ w1 w2 p,
      start_packet (World.init (2 :: 0 :: 0 :: 0xFF :: 0xFF :: List.replicate 2043 0))
          = some (.proceed w1)
        ∧ w1.rx_state.expected_len = 2048
        ∧ ¬ (w1.rx_state.expected_len + 3 ≤ BUFFER_SIZE)
        ∧ w1.hci_tx_buf.length = BUFFER_SIZE
        ∧ process_usb_to_hci true
            (World.init (2 :: 0 :: 0 :: 0xFF :: 0xFF :: List.replicate 2043 0))
          = some (w2, .handoff p none)
        ∧ p.length = 2048
        ∧ ∀ tx src : List Nat, tx.length = BUFFER_SIZE → memcpy tx 3 src 2048 = none := by
  have hsized := World.init_sized (2 :: 0 :: 0 :: 0xFF :: 0xFF :: List.replicate 2043 0)
  have hn : min (1 + [0, 0, 0xFF, 0xFF].length + spec_payload_length 2 [0, 0, 0xFF, 0xFF])
      BUFFER_SIZE = 2048 := by decide
  have hstart := start_packet_decoded
    (World.init (2 :: 0 :: 0 :: 0xFF :: 0xFF :: List.replicate 2043 0)) 2
    [0, 0, 0xFF, 0xFF] (List.replicate 2043 0) hsized.1 rfl (by decide) rfl (by decide)
  have hlen : (2 :: 0 :: 0 :: 0xFF :: 0xFF :: List.replicate 2043 0).length = 2048 := by
    simp only [List.length_cons, List.length_replicate]
  have hframe := process_frame
    (World.init (2 :: 0 :: 0 :: 0xFF :: 0xFF :: List.replicate 2043 0)) 2
    [0, 0, 0xFF, 0xFF] (List.replicate 2043 0) rfl hsized.1 rfl (by decide) rfl (by decide)
    (by rw [hn, World.init_cdc, hlen])
  rw [hn, World.init_cdc] at hframe
  have htl : ((2 :: 0 :: 0 :: 0xFF :: 0xFF :: List.replicate 2043 0).take 2048).length = 2048 := by
    rw [List.length_take, hlen]
    rfl
  rw [submitted_overrun _ _ hsized.2 (by rw [htl]; decide)] at hframe
  refine ⟨_, _, _, hstart, hn, by rw [hn]; decide, hsized.2, hframe, htl, ?_⟩
  intro tx src htx
  unfold memcpy
  rw [if_neg]
  intro h
  have h1 := h.1
  rw [htx] at h1
  exact absurd h1 (by decide)

/-- C16. Reset after hand-off: when a call made in a state reached from the zero
state hands off a packet or drops an unsupported byte, it leaves `in_progress`
false and both lengths zero; and from the world it leaves, any script of calls
and byte deliveries gives the same events (so the same packets), leaves the same
FIFO (so takes the same bytes) and the same control fields as from the all-zero
initial state holding the same FIFO content, whatever stale bytes `buffer`
holds. -/
theorem C16_reset_after_handoff (cdc : List Nat) (script script2 : List Action)
    (w w1 : World) (es : List Event) (connected : Bool) (e : Event)
    (hcdc : ∀ b ∈ cdc, b < 256) (hscript : ∀ a ∈ script, a.bytes_ok)
    (hscript2 : ∀ a ∈ script2, a.bytes_ok)
    (hrun : run (World.init cdc) script = some (w, es))
    (hcall : process_usb_to_hci connected w = some (w1, e))
    (he : (∃ p tx, e = .handoff p tx) ∨ ∃ b, e = .unsupported b) :
    (w1.rx_state.in_progress = false ∧ w1.rx_state.received_len = 0
        ∧ w1.rx_state.expected_len = 0)
      ∧ ∃ wa wb es2, run w1 script2 = some (wa, es2)
          ∧ run (World.init w1.cdc) script2 = some (wb, es2)
          ∧ wa.cdc = wb.cdc
          ∧ wa.rx_state.in_progress = wb.rx_state.in_progress
          ∧ wa.rx_state.received_len = wb.rx_state.received_len
          ∧ wa.rx_state.expected_len = wb.rx_state.expected_len := by
  obtain ⟨hwf, _⟩ := run_unique_wf cdc script w es hcdc hscript hrun
  obtain ⟨v, e1, hcall1, hwf1, hok⟩ := process_wf connected w hwf
  rw [hcall] at hcall1
  have hv : w1 = v := congrArg Prod.fst (Option.some.inj hcall1)
  have hev : e = e1 := congrArg Prod.snd (Option.some.inj hcall1)
  subst hv hev
  have hzero : w1.rx_state.is_zero := by
    rcases he with ⟨p, tx, h⟩ | ⟨b, h⟩
    · exact (Event.ok_handoff hok h).2
    · subst h
      exact hok
  have halike : w1.alike (World.init w1.cdc) := by
    refine ⟨rfl, hzero.2.2, hzero.2.1, hzero.1, ?_, hwf1.1, World.init_sized _⟩
    rw [hzero.2.1]
    rfl
  obtain ⟨wa, wb, es2, hra, hrb, hc, he2, hr2, hi2, _⟩ := run_alike script2 w1 _ hwf1 halike hscript2
  exact ⟨hzero, wa, wb, es2, hra, hrb, hc, hi2, hr2, he2⟩

/-- C16 at the hand-off of the packet `01 00 00 00` from the zero state,
followed by one more call. -/
theorem C16_reset_after_handoff_witness :
    ((∀ b ∈ [1, 0, 0, 0], b < 256) ∧ (∀ a ∈ ([] : List Action), a.bytes_ok)
        ∧ (∀ a ∈ [Action.call true], a.bytes_ok)
        ∧ run (World.init [1, 0, 0, 0]) [] = some (World.init [1, 0, 0, 0], [])
        ∧ process_usb_to_hci true (World.init [1, 0, 0, 0])
            = some (after_handoff (World.init [1, 0, 0, 0]) [1, 0, 0, 0],
                .handoff [1, 0, 0, 0] (submitted (World.init [1, 0, 0, 0]) [1, 0, 0, 0])))
      ∧ ((after_handoff (World.init [1, 0, 0, 0]) [1, 0, 0, 0]).rx_state.in_progress = false
          ∧ (after_handoff (World.init [1, 0, 0, 0]) [1, 0, 0, 0]).rx_state.received_len = 0
          ∧ (after_handoff (World.init [1, 0, 0, 0]) [1, 0, 0, 0]).rx_state.expected_len = 0)
      ∧ ∃ wa wb es2,
          run (after_handoff (World.init [1, 0, 0, 0]) [1, 0, 0, 0]) [Action.call true]
              = some (wa, es2)
            ∧ run (World.init (after_handoff (World.init [1, 0, 0, 0]) [1, 0, 0, 0]).cdc)
                [Action.call true] = some (wb, es2)
            ∧ wa.cdc = wb.cdc
            ∧ wa.rx_state.in_progress = wb.rx_state.in_progress
            ∧ wa.rx_state.received_len = wb.rx_state.received_len
            ∧ wa.rx_state.expected_len = wb.rx_state.expected_len :=
  have hcall := process_legal_packet (World.init [1, 0, 0, 0]) (Packet.mk 1 [0, 0, 0] []) []
    rfl (World.init_sized _).1 rfl (by decide) (by decide)
  ⟨⟨by decide, fun a ha => absurd ha (List.not_mem_nil _),
      fun a ha => by rw [List.mem_singleton.mp ha]; trivial, rfl, hcall⟩,
    C16_reset_after_handoff [1, 0, 0, 0] [] [Action.call true] (World.init [1, 0, 0, 0])
      (after_handoff (World.init [1, 0, 0, 0]) [1, 0, 0, 0]) [] true
      (.handoff [1, 0, 0, 0] (submitted (World.init [1, 0, 0, 0]) [1, 0, 0, 0]))
      (by decide) (fun a ha => absurd ha (List.not_mem_nil _))
      (fun a ha => by rw [List.mem_singleton.mp ha]; trivial) rfl hcall
      (Or.inl ⟨_, _, rfl⟩)⟩

end PicoUartHci
